import Mathlib

/-!
# CoreSight process tracer: tracing control plane of `src/main.c`

A shallow embedding of the control plane of the tracer: the executable-range
table, the trace buffer, the start/stop/drain state machine, the finaliser
and the forkserver entry points.  The process-wide variables of `main.c` are
the fields of `State`; every call into a collaborator (device library,
decoder, kernel) is appended to the `calls` log of the state, and what the
collaborator answers is an argument of the function that makes the call.

Machine integers: `unsigned long`, `size_t` and pointers are naturals taken
modulo `WORD = 2 ^ 64`; `int` and `long` are integers.
-/

namespace CoresightTrace

/-! ## Constants -/

/-- Macro `#define RANGE_MAX (32)` -/
def RANGE_MAX : Nat := 32

/-- Macro `#define PAGE_SIZE 0x1000` -/
def PAGE_SIZE : Nat := 0x1000

/-- Macro `#define DEFAULT_TRACE_CPU 0` -/
def DEFAULT_TRACE_CPU : Int := 0

/-- Macro `#define DEFAULT_TRACE_SIZE 0x80000` -/
def DEFAULT_TRACE_SIZE : Nat := 0x80000

/-- Macro `#define DEFAULT_TRACE_NAME "cstrace.bin"` -/
def DEFAULT_TRACE_NAME : String := "cstrace.bin"

/-- Macro `#define DEFAULT_TRACE_ARGS_NAME "decoderargs.txt"` -/
def DEFAULT_TRACE_ARGS_NAME : String := "decoderargs.txt"

/-- Number of values of a 64-bit word (`unsigned long`, `size_t`, pointers). -/
def WORD : Nat := 2 ^ 64

/-- Constant `PROT_EXEC` of `<sys/mman.h>`. -/
def PROT_EXEC : Int := 4

/-- Constant `__NR_mmap` of `<asm/unistd.h>` on arm64. -/
def NR_mmap : Int := 222

/-- Constant `__NR_exit_group` of `<asm/unistd.h>` on arm64. -/
def NR_exit_group : Int := 94

/-- Macro `#define ALIGN_UP(val, align) (((val) + (align) - 1) & ~((align) - 1))`
on 64-bit unsigned operands. -/
def ALIGN_UP (val align : Nat) : Nat :=
  ((val + align - 1) % WORD) &&& (WORD - 1 - (align - 1))

/-- Conversion of a 64-bit register value to `int` (low 32 bits, twos complement). -/
def to_int (x : Nat) : Int :=
  if x % 2 ^ 32 < 2 ^ 31 then ((x % 2 ^ 32 : Nat) : Int) else ((x % 2 ^ 32 : Nat) : Int) - 2 ^ 32

/-- Conversion of a 64-bit register value to `long` (twos complement). -/
def to_long (x : Nat) : Int :=
  if x % WORD < 2 ^ 63 then ((x % WORD : Nat) : Int) else ((x % WORD : Nat) : Int) - 2 ^ 64

/-- Conversion `(size_t)len` of an `int`. -/
def to_size_t (len : Int) : Nat := (len % (WORD : Int)).toNat

/-- Pointer difference `(char *)p - (char *)q` converted to `size_t`. -/
def ptr_diff (p q : Nat) : Nat := (p % WORD + WORD - q % WORD) % WORD

/-! ## Data -/

/-- Type `struct mmap_params` -/
structure mmap_params where
  addr : Nat
  length : Nat
  prot : Int
  flags : Int
  fd : Int
  offset : Int
  deriving DecidableEq, Repr

/-- Type `struct addr_range` (declared in `utils.h`): `start`, `end` and the path
buffer.  The field `end` is spelled `end_`. -/
structure addr_range where
  start : Nat
  end_ : Nat
  path : String
  deriving DecidableEq, Repr

/-- Type `struct user_pt_regs`: the general purpose registers `regs[0..30]`. -/
structure user_pt_regs where
  regs : Nat → Nat

/-- A call into a collaborator, with the arguments that matter and, where the
caller looks at it, the answer. -/
inductive Call where
  | sched_setaffinity (cpu : Int)
  | configure_trace (pid : Int) (ok : Bool)
  | enable_trace (ok : Bool)
  | do_dump_config
  | cs_checkpoint
  | cs_shutdown
  | cs_etb_flush_and_wait_stop
  | cs_trace_disable (i : Nat)
  | cs_sink_disable_trace_sink0
  | cs_sink_disable_etb
  | show_etm_config (i : Nat)
  | mremap (old old_size new_size res : Nat)
  | munmap (addr size : Nat)
  | cs_get_trace_data (dest limit : Nat) (n : Int)
  | cs_empty_trace_buffer
  | init_decoder (ok : Bool)
  | libcsdec_write_bitmap (buf len : Nat) (trace_id range_count : Int) (ok : Bool)
  | export_decoder_args (trace_path args_path : String) (ok : Bool)
  | fwrite (path : String) (buf size : Nat)
  | dump_mem_range
  | dump_maps
  deriving DecidableEq, Repr

/-- The process-wide variables of `main.c`, the local `is_entered_mmap` of
`parent`, the two facts of the board that `stop_trace` reads, the unread byte
count of the sink, and the log of collaborator calls. -/
structure State where
  etb_stop_on_flush : Int
  needs_rerun : Bool
  forkserver_mode : Bool
  tracing_on : Bool
  trace_cpu : Int
  trace_id : Int
  trace_started : Bool
  is_first_trace : Bool
  export_config : Bool
  range_count : Int
  range : List addr_range
  decoder : Bool
  trace_buf : Nat
  trace_buf_size : Nat
  trace_buf_ptr : Nat
  decoding_on : Bool
  count : Int
  registration_verbose : Int
  n_cpu : Nat
  has_trace_sink0 : Bool
  is_entered_mmap : Bool
  sink_unread : Int
  calls : List Call
  deriving Repr

/-- The state at program start: the initialisers of the globals of `main.c`,
an all-zero range table of `RANGE_MAX` slots, an empty sink and an empty log.
The mode flags are those chosen on the command line. -/
def State.initial (forkserver_mode tracing_on decoding_on export_config : Bool)
    (n_cpu : Nat) (has_trace_sink0 : Bool) : State :=
  { etb_stop_on_flush := 1
    needs_rerun := false
    forkserver_mode := forkserver_mode
    tracing_on := tracing_on
    trace_cpu := -1
    trace_id := -1
    trace_started := false
    is_first_trace := true
    export_config := export_config
    range_count := 0
    range := List.replicate RANGE_MAX ⟨0, 0, ""⟩
    decoder := false
    trace_buf := 0
    trace_buf_size := 0
    trace_buf_ptr := 0
    decoding_on := decoding_on
    count := 0
    registration_verbose := 0
    n_cpu := n_cpu
    has_trace_sink0 := has_trace_sink0
    is_entered_mmap := false
    sink_unread := 0
    calls := [] }

/-- Append one collaborator call to the log. -/
def State.log (s : State) (c : Call) : State :=
  { s with calls := s.calls ++ [c] }

/-! ## Address-space tracker -/

/-- Function `get_mmap_params`: `regs` is what `PTRACE_GETREGSET` delivers (`none` when
ptrace fails).  The result `none` is the return value `-1`, `some p` is the
return value `0` with `*params = p`. -/
def get_mmap_params (regs : Option user_pt_regs) : Option mmap_params :=
  match regs with
  | none => none
  | some r =>
    if to_long (r.regs 8) ≠ NR_mmap then none
    else some
      { addr := r.regs 0 % WORD
        length := r.regs 1 % WORD
        prot := to_int (r.regs 2)
        flags := to_int (r.regs 3)
        fd := to_int (r.regs 4)
        offset := to_long (r.regs 5) }

/-- Function `get_exit_group_params`: `true` is the return value `0`. -/
def get_exit_group_params (regs : Option user_pt_regs) : Bool :=
  match regs with
  | none => false
  | some r => decide (to_long (r.regs 8) = NR_exit_group)

/-- Function `append_mmap_exec_region`.  `params = none` is the null pointer; `path` is
the content of `r->path` after `read_pid_fd_path`.  The second component is
the returned pointer: `none` for `NULL`, `some i` for `&range[i]`.  The slot
written is `range[range_count]`; with `range_count < 0` the C code indexes
before the table, where the table of the model has no slot, so what is said
about the slot that is written is said for `0 ≤ range_count`. -/
def append_mmap_exec_region (s : State) (params : Option mmap_params) (path : String) :
    State × Option Nat :=
  match params with
  | none => (s, none)
  | some p =>
    if Int.land p.prot PROT_EXEC = 0 ∨ p.fd < 3 then (s, none)
    else if s.range_count ≥ (RANGE_MAX : Int) then (s, none)
    else
      let start := p.addr % WORD
      let r : addr_range :=
        { start := start
          end_ := ALIGN_UP ((start + p.length) % WORD) PAGE_SIZE
          path := path }
      ({ s with range := s.range.set s.range_count.toNat r
                range_count := s.range_count + 1 }, some s.range_count.toNat)

/-- The `SIGTRAP` branch of the main loop of `parent`: one syscall stop.
`regs` answers the register read of `get_mmap_params`, `regs2` the one of
`get_exit_group_params`. -/
def parent_syscall_stop (s : State) (regs regs2 : Option user_pt_regs) (path : String) :
    State :=
  match get_mmap_params regs with
  | none =>
    if get_exit_group_params regs2 then
      if s.registration_verbose > 0 then s.log Call.dump_maps else s
    else s
  | some p =>
    let s1 := if s.is_entered_mmap then (append_mmap_exec_region s (some p) path).1 else s
    { s1 with is_entered_mmap := !s1.is_entered_mmap }

/-- A sequence of `append_mmap_exec_region` calls, each with its parameters
and the path read for it. -/
def append_all (s : State) : List (Option mmap_params × String) → State
  | [] => s
  | c :: cs => append_all (append_mmap_exec_region s c.1 c.2).1 cs

/-- The entry that `append_mmap_exec_region` writes for a call. -/
def entry_of (p : mmap_params) (path : String) : addr_range :=
  { start := p.addr % WORD
    end_ := ALIGN_UP ((p.addr % WORD + p.length) % WORD) PAGE_SIZE
    path := path }

/-- A call of `append_mmap_exec_region` with a non-null parameter block. -/
def call_of (q : mmap_params × String) : Option mmap_params × String := (some q.1, q.2)

/-- The guard of `append_mmap_exec_region` on a parameter block: `PROT_EXEC`
is set and the file descriptor is at least 3. -/
def qualifies (p : mmap_params) : Prop := Int.land p.prot PROT_EXEC ≠ 0 ∧ 3 ≤ p.fd

instance (p : mmap_params) : Decidable (qualifies p) := by
  unfold qualifies; infer_instance

/-! ## Trace buffer store -/

/-- Function `init_trace_buf`: `m` is what `mmap` returns.  The second component is the
return value. -/
def init_trace_buf (s : State) (m : Nat) : State × Int :=
  if m = 0 then ({ s with trace_buf := m }, -1)
  else ({ s with trace_buf := m, trace_buf_size := DEFAULT_TRACE_SIZE, trace_buf_ptr := m }, 0)

/-- The tail of `fetch_trace` from the call of `cs_get_trace_data` on: the
sink is offered `buf_remain` bytes at `trace_buf_ptr` and answers `rd buf_remain`. -/
def fetch_trace_read (s : State) (buf_remain : Nat) (rd : Nat → Int) : State :=
  let n := rd buf_remain
  let s1 := s.log (Call.cs_get_trace_data s.trace_buf_ptr buf_remain n)
  if n ≤ 0 then s1
  else
    let s2 := s1.log Call.cs_empty_trace_buffer
    { s2 with sink_unread := 0
              trace_buf_ptr := (s2.trace_buf_ptr + n.toNat) % WORD }

/-- Function `fetch_trace`.  The unread byte count `len` is read from the sink,
`new_trace_buf` is what `mremap` returns if it is called, and `rd limit` is
what `cs_get_trace_data` returns when it is offered `limit` bytes. -/
def fetch_trace (s : State) (new_trace_buf : Nat) (rd : Nat → Int) : State :=
  let len := s.sink_unread
  let s1 := { s with trace_buf_ptr := ALIGN_UP s.trace_buf_ptr 0x8 }
  let buf_remain := (s1.trace_buf_size + WORD - ptr_diff s1.trace_buf_ptr s1.trace_buf) % WORD
  if to_size_t len > buf_remain then
    let new_trace_buf_size := (s1.trace_buf_size * 2) % WORD
    let s2 := s1.log (Call.mremap s1.trace_buf s1.trace_buf_size new_trace_buf_size new_trace_buf)
    if new_trace_buf = 0 then s2
    else
      let s3 := { s2 with
        trace_buf_ptr := (new_trace_buf + ptr_diff s2.trace_buf_ptr s2.trace_buf) % WORD
        trace_buf := new_trace_buf
        trace_buf_size := new_trace_buf_size }
      fetch_trace_read s3 (ptr_diff s3.trace_buf_ptr s3.trace_buf) rd
  else fetch_trace_read s1 buf_remain rd

/-- Modelled from the spec: the sink read of the device library
(`cs_get_trace_data`, not part of this repository) on a sink that holds
`unread` bytes delivers all unread bytes up to the limit it is offered. -/
def sink_read (unread : Int) (limit : Nat) : Int := min unread (limit : Int)

/-! ## Trace controller -/

/-- Function `set_cpu_affinity`, as far as the state goes: the default trace CPU is
chosen when none was, and the pid is pinned to it. -/
def set_cpu_affinity (s : State) : State :=
  let s1 := if s.trace_cpu < 0 then { s with trace_cpu := DEFAULT_TRACE_CPU } else s
  s1.log (Call.sched_setaffinity s1.trace_cpu)

/-- Function `start_trace`: `cfg_ok` and `en_ok` say whether `configure_trace` and
`enable_trace` succeed if they are called.  The second component is the
return value. -/
def start_trace (s : State) (pid : Int) (cfg_ok en_ok : Bool) : State × Int :=
  let configured : State × Bool :=
    if s.is_first_trace then
      let s1 := s.log (Call.configure_trace (if s.forkserver_mode then 0 else pid) cfg_ok)
      if cfg_ok then ({ s1 with is_first_trace := false }, true) else (s1, false)
    else (s, true)
  if configured.2 then
    let s2 := configured.1.log (Call.enable_trace en_ok)
    if en_ok then
      let s3 := if s2.export_config then s2.log Call.do_dump_config else s2
      let s4 := s3.log Call.cs_checkpoint
      ({ s4 with trace_started := true }, 0)
    else (s2.log Call.cs_shutdown, -1)
  else (configured.1.log Call.cs_shutdown, -1)

/-- The loop `for (i = 0; i < board->n_cpu; ++i) f(devices.ptm[i])`. -/
def for_each_cpu (s : State) (f : Nat → Call) : State :=
  (List.range s.n_cpu).foldl (fun st i => st.log (f i)) s

/-- Function `stop_trace` -/
def stop_trace (s : State) : State :=
  let s1 := { s with trace_started := false }
  let s2 := if s1.etb_stop_on_flush > 0 then s1.log Call.cs_etb_flush_and_wait_stop else s1
  let s3 := for_each_cpu s2 Call.cs_trace_disable
  let s4 := if s3.has_trace_sink0 then s3.log Call.cs_sink_disable_trace_sink0 else s3
  let s5 := s4.log Call.cs_sink_disable_etb
  let s6 := s5.log Call.cs_checkpoint
  if s6.registration_verbose > 1 then for_each_cpu s6 Call.show_etm_config else s6

/-- The step `decoder = decoder ? decoder : init_decoder()` under
`forkserver_mode || decoding_on`; `init_ok` says whether `init_decoder`
returns a decoder if it is called. -/
def ensure_decoder (s : State) (init_ok : Bool) : State :=
  if s.forkserver_mode || s.decoding_on then
    if s.decoder then s
    else { s.log (Call.init_decoder init_ok) with decoder := init_ok }
  else s

/-- Function `decode_trace`: `dec_ok` says whether `libcsdec_write_bitmap` returns
`LIBCEDEC_SUCCESS` if it is called.  The second component is the return value. -/
def decode_trace (s : State) (init_ok dec_ok : Bool) : State × Int :=
  let s1 := ensure_decoder s init_ok
  if (s1.forkserver_mode || s1.decoding_on) && !s1.decoder then (s1, -1)
  else if s1.trace_id < 0 then (s1, -1)
  else if s1.forkserver_mode || s1.decoding_on then
    let s2 := s1.log (Call.libcsdec_write_bitmap s1.trace_buf s1.trace_buf_size s1.trace_id
      s1.range_count dec_ok)
    let s3 := { s2.log Call.cs_empty_trace_buffer with sink_unread := 0 }
    if dec_ok then (s3, 0) else ({ s3 with needs_rerun := true }, -1)
  else (s1, 0)

/-- The path of the raw trace file that `fini_trace` builds under `cwd`. -/
def trace_path (s : State) (cwd : String) : String :=
  if s.forkserver_mode then cwd ++ "/cstrace" ++ toString s.count ++ ".bin"
  else cwd ++ "/" ++ DEFAULT_TRACE_NAME

/-- The path of the decoder argument file that `fini_trace` builds under `cwd`. -/
def decoder_args_path (s : State) (cwd : String) : String :=
  if s.forkserver_mode then cwd ++ "/decoderargs" ++ toString s.count ++ ".txt"
  else cwd ++ "/" ++ DEFAULT_TRACE_ARGS_NAME

/-- The label `exit:` of `fini_trace`. -/
def fini_trace_exit (s : State) : State :=
  let s1 := if s.registration_verbose > 0 then s.log Call.dump_mem_range else s
  if s1.trace_buf ≠ 0 then s1.log (Call.munmap s1.trace_buf s1.trace_buf_size) else s1

/-- The part of `fini_trace` from `getcwd` on: `cwd` is what `getcwd`
returns, `args_ok` whether `export_decoder_args` succeeds, `fopen_ok` whether
the trace file can be opened. -/
def fini_trace_export (s : State) (cwd : Option String) (args_ok fopen_ok : Bool) : State :=
  match cwd with
  | none => s
  | some d =>
    let s1 := s.log (Call.export_decoder_args (trace_path s d) (decoder_args_path s d) args_ok)
    if args_ok then
      let s2 :=
        if fopen_ok then
          s1.log (Call.fwrite (trace_path s d) s1.trace_buf (ptr_diff s1.trace_buf_ptr s1.trace_buf))
        else s1
      fini_trace_exit s2
    else fini_trace_exit s1

/-- Function `fini_trace` -/
def fini_trace (s : State) (init_ok dec_ok : Bool) (cwd : Option String)
    (args_ok fopen_ok : Bool) : State :=
  let s0 := s.log Call.cs_shutdown
  let s1 := ensure_decoder s0 init_ok
  if (s1.forkserver_mode || s1.decoding_on) && !s1.decoder then s1
  else if s1.trace_id < 0 then s1
  else if s1.forkserver_mode || s1.decoding_on then
    let s2 := s1.log (Call.libcsdec_write_bitmap s1.trace_buf s1.trace_buf_size s1.trace_id
      s1.range_count dec_ok)
    let s3 := if dec_ok then s2 else { s2 with needs_rerun := true }
    if !s3.export_config && !s3.needs_rerun then s3
    else fini_trace_export s3 cwd args_ok fopen_ok
  else fini_trace_export s1 cwd args_ok fopen_ok

/-! ## Forkserver adapter and supervisor -/

/-- Function `afl_start_trace`: `m` is what `mmap` returns in `init_trace_buf`. -/
def afl_start_trace (s : State) (pid : Int) (m : Nat) (cfg_ok en_ok : Bool) : State :=
  let s1 := set_cpu_affinity s
  let s2 := (init_trace_buf s1 m).1
  if s2.tracing_on then (start_trace s2 pid cfg_ok en_ok).1 else s2

/-- Function `afl_stop_trace` -/
def afl_stop_trace (s : State) (new_trace_buf : Nat) (rd : Nat → Int)
    (init_ok dec_ok : Bool) : State :=
  let s1 := stop_trace s
  let s2 := fetch_trace s1 new_trace_buf rd
  let s3 := (decode_trace s2 init_ok dec_ok).1
  let s4 := if s3.trace_buf ≠ 0 then s3.log (Call.munmap s3.trace_buf s3.trace_buf_size) else s3
  { s4 with count := s4.count + 1 }

/-- The `SIGSTOP` branch of the main loop of `parent`: the drain and restart
that the watchdog asks for. -/
def parent_sigstop (s : State) (pid : Int) (new_trace_buf : Nat) (rd : Nat → Int)
    (cfg_ok en_ok : Bool) : State :=
  if s.tracing_on then
    let s1 := stop_trace s
    let s2 := fetch_trace s1 new_trace_buf rd
    (start_trace s2 pid cfg_ok en_ok).1
  else s

/-- The trace files written so far: path and byte count of each `fwrite`. -/
def files_written : List Call → List (String × Nat)
  | [] => []
  | Call.fwrite path _ size :: cs => (path, size) :: files_written cs
  | _ :: cs => files_written cs

/-! ## Runs of drains -/

/-- What the environment answers during one `fetch_trace` call: the unread
byte count that the sink reports, the address that `mremap` returns if it is
called, and the byte count that `cs_get_trace_data` returns for each limit. -/
structure Drain where
  unread : Int
  new_trace_buf : Nat
  rd : Nat → Int

/-- One `fetch_trace` call in the environment `d`. -/
def drain (s : State) (d : Drain) : State :=
  fetch_trace { s with sink_unread := d.unread } d.new_trace_buf d.rd

/-- A sequence of `fetch_trace` calls. -/
def drains (s : State) : List Drain → State
  | [] => s
  | d :: ds => drains (drain s d) ds

/-- The environment of one `fetch_trace` call is well behaved: the sink read
returns at most the limit it is given, and the address that `mremap` returns
is `NULL` or an 8-byte aligned address at which the doubled buffer ends below
`2 ^ 64`. -/
def drain_ok (s : State) (d : Drain) : Prop :=
  (∀ limit : Nat, d.rd limit ≤ (limit : Int)) ∧
    d.new_trace_buf % 8 = 0 ∧ d.new_trace_buf + 2 * s.trace_buf_size < WORD

/-- Every call of a sequence of `fetch_trace` calls has a well behaved environment. -/
def drains_ok (s : State) : List Drain → Prop
  | [] => True
  | d :: ds => drain_ok s d ∧ drains_ok (drain s d) ds

/-- The trace buffer is a region of memory: base and size are multiples of 8,
the region ends below `2 ^ 64`, and the head lies between the base and the
end of the region. -/
def buf_inv (s : State) : Prop :=
  s.trace_buf % 8 = 0 ∧ s.trace_buf_size % 8 = 0 ∧ s.trace_buf + s.trace_buf_size < WORD ∧
    s.trace_buf ≤ s.trace_buf_ptr ∧ s.trace_buf_ptr ≤ s.trace_buf + s.trace_buf_size

/-! ## Sessions -/

/-- One step of a tracing session: a call of `start_trace`, `stop_trace` or
`fetch_trace`, a watchdog restart (`SIGSTOP` branch of `parent`), or a
forkserver run start or stop, each with the answers of the collaborators. -/
inductive Op where
  | start (pid : Int) (cfg_ok en_ok : Bool)
  | stop
  | fetch (d : Drain)
  | sigstop (pid : Int) (d : Drain) (cfg_ok en_ok : Bool)
  | afl_start (pid : Int) (m : Nat) (cfg_ok en_ok : Bool)
  | afl_stop (d : Drain) (init_ok dec_ok : Bool)

/-- Run one step of a session. -/
def run_op (s : State) : Op → State
  | Op.start pid cfg_ok en_ok => (start_trace s pid cfg_ok en_ok).1
  | Op.stop => stop_trace s
  | Op.fetch d => drain s d
  | Op.sigstop pid d cfg_ok en_ok =>
    parent_sigstop { s with sink_unread := d.unread } pid d.new_trace_buf d.rd cfg_ok en_ok
  | Op.afl_start pid m cfg_ok en_ok => afl_start_trace s pid m cfg_ok en_ok
  | Op.afl_stop d init_ok dec_ok =>
    afl_stop_trace { s with sink_unread := d.unread } d.new_trace_buf d.rd init_ok dec_ok

/-- Run the steps of a session in order. -/
def run_ops (s : State) : List Op → State
  | [] => s
  | op :: ops => run_ops (run_op s op) ops

/-- Modelled from the spec: the effect of a device-library call (the library is
not part of this repository) on whether the hardware sources are enabled and
the sink is active.  A successful `enable_trace` turns them on; a failed
`enable_trace`, `cs_shutdown` and the disable calls turn them off; every
other call leaves them as they are. -/
def hw_step (active : Bool) : Call → Bool
  | Call.enable_trace ok => ok
  | Call.cs_shutdown => false
  | Call.cs_trace_disable _ => false
  | Call.cs_sink_disable_trace_sink0 => false
  | Call.cs_sink_disable_etb => false
  | _ => active

/-- Whether the sources are enabled and the sink is active after the calls of
the log, starting from disabled hardware. -/
def hw_active (calls : List Call) : Bool := calls.foldl hw_step false

/-- The step calls `start_trace` while `trace_started` is already true, and
that call fails. -/
def failed_restart (s : State) : Op → Prop
  | Op.start pid cfg_ok en_ok => s.trace_started = true ∧ (start_trace s pid cfg_ok en_ok).2 < 0
  | Op.afl_start pid m cfg_ok en_ok =>
    s.trace_started = true ∧ s.tracing_on = true ∧
      (start_trace (init_trace_buf (set_cpu_affinity s) m).1 pid cfg_ok en_ok).2 < 0
  | _ => False

/-- No step of the session is a failed restart. -/
def no_failed_restart (s : State) : List Op → Prop
  | [] => True
  | op :: ops => ¬ failed_restart s op ∧ no_failed_restart (run_op s op) ops

/-- A `configure_trace` call. -/
def is_configure : Call → Bool
  | Call.configure_trace _ _ => true
  | _ => false

/-- A `configure_trace` call that succeeds. -/
def is_configure_ok : Call → Bool
  | Call.configure_trace _ true => true
  | _ => false

/-- An `enable_trace` call. -/
def is_enable : Call → Bool
  | Call.enable_trace _ => true
  | _ => false

/-- A drain of `0x100` bytes into a buffer that has room. -/
def small_drain : Drain :=
  { unread := 0x100, new_trace_buf := 0x7f0000000000, rd := sink_read 0x100 }

/-- The order of `configure_trace` and `enable_trace` calls in a log: every
`enable_trace` call comes after a `configure_trace` call that succeeded, and
no `configure_trace` call comes after one that succeeded. -/
def ordered (cs : List Call) : Prop :=
  ∀ pre c post, cs = pre ++ c :: post →
    (is_enable c = true → 0 < pre.countP is_configure_ok) ∧
    (is_configure c = true → pre.countP is_configure_ok = 0)

/-- The log is ordered and holds a successful `configure_trace` call exactly
when `is_first_trace` is false, and then only one. -/
def cfg_log (cs : List Call) (first : Bool) : Prop :=
  ordered cs ∧ cs.countP is_configure_ok = (if first then 0 else 1)

/-- The log of the state and its `is_first_trace` flag agree in the sense of `cfg_log`. -/
def cfg_inv (s : State) : Prop := cfg_log s.calls s.is_first_trace

/-- State `t` has the `is_first_trace` of `s` and the log of `s` extended by
calls other than `configure_trace` and `enable_trace`. -/
def passive_ext (s t : State) : Prop :=
  t.is_first_trace = s.is_first_trace ∧
    ∃ extra, t.calls = s.calls ++ extra ∧
      ∀ x ∈ extra, is_enable x = false ∧ is_configure x = false

/-! ## Sample inputs -/

/-- Forty mmap calls of distinct executable files, each passing the guard. -/
def forty_mmaps : List (mmap_params × String) :=
  (List.range 40).map fun i =>
    ({ addr := 0x7f0000000000 + i * 0x10000, length := 0x2000, prot := 5, flags := 2,
       fd := 3 + (i : Int), offset := 0 }, "/usr/lib/lib" ++ toString i ++ ".so")

/-- A mixed sequence of calls: a null block, a non-executable mapping, an
anonymous mapping and an executable file mapping. -/
def mixed_calls : List (Option mmap_params × String) :=
  [ (none, ""),
    (some { addr := 0x7f0000000000, length := 0x1000, prot := 3, flags := 2, fd := 4, offset := 0 }, "/tmp/data"),
    (some { addr := 0x7f0000010000, length := 0x1000, prot := 7, flags := 0x22, fd := -1, offset := 0 }, ""),
    (some { addr := 0x7f0000020000, length := 0x1234, prot := 5, flags := 2, fd := 3, offset := 0 }, "/usr/lib/libc.so") ]

/-- The state at the start of a one-shot run with tracing on. -/
def fresh : State := State.initial false true false false 1 false

/-- The parameter block read at the exit stop of an mmap call that failed
with `ENOMEM`: `x0` holds the return value `-12`, the other registers the
arguments of a one-page executable mapping of file descriptor 3. -/
def failed_mmap_params : mmap_params :=
  { addr := WORD - 12, length := 0x1000, prot := 5, flags := 2, fd := 3, offset := 0 }

/-- The parameter block of a two-page executable mapping of file descriptor 3. -/
def good_mmap_params : mmap_params :=
  { addr := 0x7f0000020000, length := 0x1234, prot := 5, flags := 2, fd := 3, offset := 0 }

/-- The registers at the exit stop of an mmap call that failed with `ENOMEM`:
`x8 = __NR_mmap`, `x0 = -12`, and in `x1 .. x5` the arguments of a one-page
`PROT_READ | PROT_EXEC` mapping of file descriptor 3. -/
def failed_mmap_regs : user_pt_regs :=
  { regs := fun i =>
      match i with
      | 0 => WORD - 12
      | 1 => 0x1000
      | 2 => 5
      | 3 => 2
      | 4 => 3
      | 8 => 222
      | _ => 0 }

/-- A supervisor that has seen the entry stop of an mmap call. -/
def fresh_in_mmap : State := { fresh with is_entered_mmap := true }

/-- A buffer freshly mapped at `0x7f0000000000`. -/
def fresh_buf : State := (init_trace_buf fresh 0x7f0000000000).1

/-- Two drains: one of `0x1001` bytes that fits, then one of `0x80000` bytes
that makes the buffer grow in place. -/
def two_drains : List Drain :=
  [ { unread := 0x1001, new_trace_buf := 0x7f0000000000, rd := sink_read 0x1001 },
    { unread := 0x80000, new_trace_buf := 0x7f0000000000, rd := sink_read 0x80000 } ]

/-- Function `fetch_trace` on a sink that holds `s.sink_unread` bytes and delivers all
unread bytes up to the limit it is offered. -/
def fetch_trace_sink (s : State) (new_trace_buf : Nat) : State :=
  fetch_trace s new_trace_buf (sink_read s.sink_unread)

/-- One round `stop_trace; fetch_trace`. -/
def stop_drain (s : State) (new_trace_buf : Nat) : State :=
  fetch_trace_sink (stop_trace s) new_trace_buf

/-- A fresh buffer while tracing runs and the sink holds `0x80001` unread
bytes, one more than the buffer has room for. -/
def full_sink : State := { fresh_buf with sink_unread := 0x80001, trace_started := true }

/-- A buffer that holds `0x1008` bytes while the sink holds `0x80000` unread bytes. -/
def partly_filled : State :=
  { fresh_buf with trace_buf_ptr := 0x7f0000001008, sink_unread := 0x80000 }

/-- The collaborator calls that `stop_trace` makes in state `s`, in order. -/
def stop_trace_calls (s : State) : List Call :=
  (if s.etb_stop_on_flush > 0 then [Call.cs_etb_flush_and_wait_stop] else []) ++
    (List.range s.n_cpu).map Call.cs_trace_disable ++
    (if s.has_trace_sink0 then [Call.cs_sink_disable_trace_sink0] else []) ++
    [Call.cs_sink_disable_etb, Call.cs_checkpoint] ++
    (if s.registration_verbose > 1 then (List.range s.n_cpu).map Call.show_etm_config else [])

/-- A one-shot run at exit: tracing on, decoding off, no export asked for, a
known trace id and `0x100` bytes of trace in the buffer. -/
def one_shot_at_exit : State :=
  { fresh_buf with trace_id := 0, trace_buf_ptr := 0x7f0000000100 }

/-- A run with export asked for whose trace id is unknown. -/
def export_without_trace_id : State :=
  { fresh_buf with export_config := true, trace_id := -1, trace_buf_ptr := 0x7f0000000100 }

instance (s : State) (op : Op) : Decidable (failed_restart s op) := by
  cases op <;> unfold failed_restart <;> infer_instance

/-- A one-shot session: start, a watchdog restart, a second restart whose
`enable_trace` fails, and a start that succeeds again. -/
def one_shot_session : List Op :=
  [ Op.start 100 true true,
    Op.sigstop 100 small_drain true true,
    Op.sigstop 100 small_drain true false,
    Op.start 100 true true ]

/-- A session whose first `configure_trace` fails: the initial start fails,
and the `SIGSTOP` restart that follows configures again. -/
def retry_session : List Op :=
  [ Op.start 100 false true,
    Op.sigstop 100 small_drain true true ]

/-- The address of a remapped buffer that has moved. -/
def moved_base : Nat := 0x7f0000100000

/-! ## Sequences of syscall stops -/

/-- One syscall stop of the target as the supervisor meets it: the number of
the syscall that the target is in, whether the stop is the exit stop of that
syscall, what the two register reads of the `SIGTRAP` branch deliver (`none`
when ptrace fails), and the path read for an appended entry. -/
structure Stop where
  nr : Int
  is_exit : Bool
  regs : Option user_pt_regs
  regs2 : Option user_pt_regs
  path : String

/-- Whether the `SIGTRAP` branch of `parent` reaches its call of
`append_mmap_exec_region`: `get_mmap_params` returns 0 and `is_entered_mmap`
is set. -/
def invokes_append (s : State) (regs : Option user_pt_regs) : Bool :=
  (get_mmap_params regs).isSome && s.is_entered_mmap

/-- The `SIGTRAP` branch run on a sequence of syscall stops. -/
def syscall_stops (s : State) : List Stop → State
  | [] => s
  | st :: sts => syscall_stops (parent_syscall_stop s st.regs st.regs2 st.path) sts

/-- The stops are the stops of one thread: entry and exit stops alternate and
an exit stop belongs to the syscall of the entry stop before it.  The first
argument is the syscall whose entry stop was the last stop, if any. -/
def well_formed : Option Int → List Stop → Bool
  | _, [] => true
  | none, st :: sts => !st.is_exit && well_formed (some st.nr) sts
  | some nr, st :: sts => st.is_exit && decide (st.nr = nr) && well_formed none sts

/-- A register read that succeeds shows the number of the syscall in `x8`. -/
def faithful (st : Stop) : Bool :=
  match st.regs with
  | none => true
  | some r => decide (to_long (r.regs 8) = st.nr)

/-- The property of C12 along a sequence of stops, from state `s` on: at each
stop `append_mmap_exec_region` is called exactly when the stop is the exit
stop of an mmap call, and after each stop the toggle is set exactly when the
stop was the entry stop of an mmap call. -/
def toggle_tracks (s : State) : List Stop → Prop
  | [] => True
  | st :: sts =>
    (invokes_append s st.regs = true ↔ (st.nr = NR_mmap ∧ st.is_exit = true)) ∧
    ((parent_syscall_stop s st.regs st.regs2 st.path).is_entered_mmap = true ↔
      (st.nr = NR_mmap ∧ st.is_exit = false)) ∧
    toggle_tracks (parent_syscall_stop s st.regs st.regs2 st.path) sts

/-- The registers at the entry stop of an mmap call: `x8 = __NR_mmap`, the
address hint `x0 = 0`, and in `x1 .. x5` the arguments of a one-page
`PROT_READ | PROT_EXEC` mapping of file descriptor 3. -/
def mmap_entry_regs : user_pt_regs :=
  { regs := fun i =>
      match i with
      | 1 => 0x1000
      | 2 => 5
      | 3 => 2
      | 4 => 3
      | 8 => 222
      | _ => 0 }

/-- The registers at the exit stop of that mmap call: `x0` holds the address
of the new mapping. -/
def mmap_exit_regs : user_pt_regs :=
  { regs := fun i =>
      match i with
      | 0 => 0x7f0000030000
      | 1 => 0x1000
      | 2 => 5
      | 3 => 2
      | 4 => 3
      | 8 => 222
      | _ => 0 }

/-- The registers at a stop of the `openat` syscall (number 56). -/
def openat_regs : user_pt_regs :=
  { regs := fun i =>
      match i with
      | 8 => 56
      | _ => 3 }

/-- An mmap call whose exit stop is skipped because the register read fails,
followed by the entry stop of a second mmap call. -/
def skipped_exit : List Stop :=
  [ { nr := 222, is_exit := false, regs := some mmap_entry_regs, regs2 := none, path := "" },
    { nr := 222, is_exit := true, regs := none, regs2 := none, path := "/usr/lib/liba.so" },
    { nr := 222, is_exit := false, regs := some mmap_entry_regs, regs2 := none,
      path := "/usr/lib/libb.so" } ]

/-- An `openat` call whose entry stop is skipped, then a complete mmap call. -/
def open_then_mmap : List Stop :=
  [ { nr := 56, is_exit := false, regs := none, regs2 := none, path := "" },
    { nr := 56, is_exit := true, regs := some openat_regs, regs2 := some openat_regs, path := "" },
    { nr := 222, is_exit := false, regs := some mmap_entry_regs, regs2 := none, path := "" },
    { nr := 222, is_exit := true, regs := some mmap_exit_regs, regs2 := none,
      path := "/usr/lib/liba.so" } ]

/-! ## CPU topology advisor -/

/-- Constant `LONG_MAX` of `<limits.h>` on the 64-bit target. -/
def LONG_MAX : Int := 2 ^ 63 - 1

/-- Constant `LONG_MIN` of `<limits.h>` on the 64-bit target. -/
def LONG_MIN : Int := -(2 ^ 63)

/-- Library predicate `isspace` in the C locale: space and the control
characters 9 to 13. -/
def is_space (c : Char) : Bool := c.toNat = 32 || (9 ≤ c.toNat && c.toNat ≤ 13)

/-- The value of a character as a digit of `strtol`: 0 to 9 for decimal
digits, 10 to 35 for letters of either case, 36 for any other character. -/
def digit_value (c : Char) : Nat :=
  if 48 ≤ c.toNat ∧ c.toNat ≤ 57 then c.toNat - 48
  else if 97 ≤ c.toNat ∧ c.toNat ≤ 122 then c.toNat - 87
  else if 65 ≤ c.toNat ∧ c.toNat ≤ 90 then c.toNat - 55
  else 36

/-- Library function `strtol(s, NULL, 0)` of the C library on the characters
of a C string: leading white space is skipped, an optional sign is read, the
base is 16 after a `0x` prefix that a hexadecimal digit follows, 8 after a
leading `0` and 10 otherwise, the longest run of digits of that base is
converted, and the result is clamped to the range of `long`.  A string
without digits gives 0. -/
def strtol (s : List Char) : Int :=
  let s1 := s.dropWhile is_space
  let neg : Bool := s1.head? = some '-'
  let s2 :=
    match s1 with
    | c :: r => if c = '-' ∨ c = '+' then r else s1
    | [] => []
  let hex : Bool :=
    match s2 with
    | z :: x :: h :: _ => decide (z = '0' ∧ (x = 'x' ∨ x = 'X') ∧ digit_value h < 16)
    | _ => false
  let base : Nat := if hex then 16 else if s2.head? = some '0' then 8 else 10
  let s3 := if hex then s2.drop 2 else s2
  let v : Nat :=
    (s3.takeWhile (fun c => decide (digit_value c < base))).foldl
      (fun acc c => acc * base + digit_value c) 0
  if neg then max LONG_MIN (-(v : Int)) else min LONG_MAX (v : Int)

/-- The tokens that successive `getdelim(&token, &n, delim, fp)` calls read
from a text until end of file: each token runs up to and including the next
delimiter; the last one ends at end of file. -/
def getdelim_tokens (delim : Char) : List Char → List (List Char)
  | [] => []
  | c :: cs =>
    if c = delim then [c] :: getdelim_tokens delim cs
    else
      match getdelim_tokens delim cs with
      | [] => [[c]]
      | t :: ts => (c :: t) :: ts

/-- Macro `CPU_ALLOC_SIZE(count)`: the size in bytes of a CPU set for `count`
CPUs, a whole number of 64-bit words. -/
def CPU_ALLOC_SIZE (count : Nat) : Nat := (count + 63) / 64 * 8

/-- Macro `CPU_SET_S(cpu, setsize, set)` with an `int` CPU number: the number
is converted to `size_t` and the bit is set when it lies within `setsize`
bytes.  A CPU set is the list of its set bits. -/
def CPU_SET_S (cpu : Int) (setsize : Nat) (set : List Nat) : List Nat :=
  if to_size_t cpu / 8 < setsize then to_size_t cpu :: set else set

/-- Macro `CPU_ISSET_S(cpu, setsize, set)` with an `int` CPU number. -/
def CPU_ISSET_S (cpu : Int) (setsize : Nat) (set : List Nat) : Bool :=
  decide (to_size_t cpu / 8 < setsize) && set.contains (to_size_t cpu)

/-- The body of the `getdelim` loop of `set_core_cpus` up to the conversion:
the last character of a token longer than one character is overwritten with
NUL unless it is NUL, and `strtol` converts the C string that starts the
token; the result is converted to `int`. -/
def core_cpu_of_token (token : List Char) : Int :=
  let t :=
    if token.length > 1 ∧ token.getLast? ≠ some (Char.ofNat 0) then token.dropLast else token
  to_int (to_size_t (strtol (t.takeWhile (fun c => c ≠ Char.ofNat 0))))

/-- The `getdelim` loop of `set_core_cpus` over the tokens of the file: each
token is converted and its CPU is added to the set; the loop is left with the
return value `-1` (`none`) when the converted `int` equals `LONG_MIN` or
`LONG_MAX`. -/
def set_core_cpus_loop (setsize : Nat) : List (List Char) → List Nat → Option (List Nat)
  | [], cpu_set => some cpu_set
  | token :: tokens, cpu_set =>
    if core_cpu_of_token token = LONG_MIN ∨ core_cpu_of_token token = LONG_MAX then none
    else set_core_cpus_loop setsize tokens (CPU_SET_S (core_cpu_of_token token) setsize cpu_set)

/-- Function `set_core_cpus`: `file` is the text of the `core_cpus_list` entry
of the CPU (`none` when `fopen` fails).  The result `none` is the return value
`-1`, `some set` the return value `0` with the CPU set after the call. -/
def set_core_cpus (file : Option String) (cpu_set : List Nat) (setsize : Nat) :
    Option (List Nat) :=
  if setsize = 0 then none
  else
    match file with
    | none => none
    | some text => set_core_cpus_loop setsize (getdelim_tokens ',' text.toList) cpu_set

/-- What the system answers to `get_preferred_cpu`: the number of processors
(`get_nprocs`), whether the two `CPU_ALLOC` calls succeed, the affinity set of
the pid (`none` when `sched_getaffinity` fails) and the text of the
`core_cpus_list` entry of each CPU (`none` when it cannot be opened). -/
structure CpuEnv where
  nprocs : Nat
  alloc_cpu_set : Bool
  alloc_core_cpu_set : Bool
  affinity : Option (List Nat)
  core_cpus_list : Nat → Option String

/-- The first loop of `get_preferred_cpu`: the core CPU set after the entries
of all CPUs of the affinity set have been read, `none` when one read fails. -/
def collect_core_cpus (env : CpuEnv) (cpu_set : List Nat) (setsize : Nat) : Option (List Nat) :=
  (List.range env.nprocs).foldl
    (fun acc (i : Nat) =>
      match acc with
      | none => none
      | some core_cpu_set =>
        if CPU_ISSET_S (i : Int) setsize cpu_set then
          set_core_cpus (env.core_cpus_list i) core_cpu_set setsize
        else some core_cpu_set)
    (some [])

/-- Function `get_preferred_cpu` -/
def get_preferred_cpu (env : CpuEnv) : Int :=
  if !env.alloc_cpu_set then -1
  else
    match env.affinity with
    | none => -1
    | some cpu_set =>
      if !env.alloc_core_cpu_set then -1
      else
        let setsize := CPU_ALLOC_SIZE env.nprocs
        match collect_core_cpus env cpu_set setsize with
        | none => -1
        | some core_cpu_set =>
          match (List.range env.nprocs).find?
              (fun (i : Nat) => !CPU_ISSET_S (i : Int) setsize core_cpu_set) with
          | some i => (i : Int)
          | none => -1

/-- The parts of a text between separators, as the spec reads a CPU list. -/
def spec_split (sep : Char) : List Char → List (List Char)
  | [] => [[]]
  | c :: cs =>
    if c = sep then [] :: spec_split sep cs
    else
      match spec_split sep cs with
      | [] => [[c]]
      | t :: ts => (c :: t) :: ts

/-- The decimal number spelled by the digits of a part. -/
def spec_number (cs : List Char) : Nat :=
  (cs.filter Char.isDigit).foldl (fun acc c => acc * 10 + (c.toNat - 48)) 0

/-- The CPUs of one item of a CPU list: a number, or a range `a-b`. -/
def spec_item (cs : List Char) : List Nat :=
  match spec_split '-' cs with
  | [a] => if a.any Char.isDigit then [spec_number a] else []
  | [a, b] => (List.range (spec_number b + 1)).filter (fun i => decide (spec_number a ≤ i))
  | _ => []

/-- The CPUs listed by the text of a `core_cpus_list` entry, in the words of
the spec: comma-separated CPU numbers and ranges such as `0-1`. -/
def spec_cpulist (text : String) : List Nat :=
  ((spec_split ',' text.toList).map spec_item).flatten

/-- The preferred CPU in the words of the spec: the lowest-numbered CPU in
`[0, nprocs)` that is not a sibling of any CPU of the affinity set, or `-1` if
every CPU is such a sibling. -/
def spec_preferred_cpu (nprocs : Nat) (affinity : List Nat) (entry : Nat → String) : Int :=
  match (List.range nprocs).find?
      (fun i => !affinity.any (fun a => (spec_cpulist (entry a)).contains i)) with
  | some i => (i : Int)
  | none => -1

/-- A host with four CPUs in two SMT pairs whose topology entries spell the
pairs as ranges, and a target pinned to the first pair. -/
def smt_pairs : CpuEnv :=
  { nprocs := 4
    alloc_cpu_set := true
    alloc_core_cpu_set := true
    affinity := some [0, 1]
    core_cpus_list := fun i => if i < 2 then some "0-1\n" else some "2-3\n" }

/-- The same host with topology entries that spell the pairs with commas. -/
def smt_pairs_commas : CpuEnv :=
  { smt_pairs with core_cpus_list := fun i => if i < 2 then some "0,1\n" else some "2,3\n" }

theorem and_mask (x k : Nat) (hk : k ≤ 64) (hx : x < 2 ^ 64) :
    x &&& (2 ^ 64 - 1 - (2 ^ k - 1)) = x / 2 ^ k * 2 ^ k := by
  apply Nat.eq_of_testBit_eq
  intro i
  have hm : 2 ^ 64 - 1 - (2 ^ k - 1) = 2 ^ k * (2 ^ (64 - k) - 1) := by
    have h1 : 2 ^ 64 = 2 ^ k * 2 ^ (64 - k) := by
      rw [← pow_add]; congr 1; omega
    have h2 : 0 < 2 ^ k := Nat.two_pow_pos k
    have h3 : 0 < 2 ^ (64 - k) := Nat.two_pow_pos _
    rw [Nat.mul_sub, mul_one, ← h1]
    omega
  rw [hm, Nat.testBit_and, Nat.mul_comm (x / 2 ^ k), Nat.testBit_mul_pow_two,
    Nat.testBit_mul_pow_two, Nat.testBit_two_pow_sub_one, ← Nat.shiftRight_eq_div_pow,
    Nat.testBit_shiftRight]
  by_cases hik : k ≤ i
  · have e : k + (i - k) = i := by omega
    simp only [ge_iff_le, hik, decide_True, Bool.true_and, e]
    by_cases h64 : i < 64
    · have : i - k < 64 - k := by omega
      simp [this]
    · have : ¬ (i - k < 64 - k) := by omega
      simp only [this, decide_False, Bool.and_false]
      have hlt : x < 2 ^ i := lt_of_lt_of_le hx (Nat.pow_le_pow_right (by norm_num) (by omega))
      exact (Nat.testBit_lt_two_pow hlt).symm ▸ rfl
  · simp [hik]

/-- Rounding: `ALIGN_UP` to a page is the wrapped sum rounded down to a multiple of `0x1000`. -/
theorem ALIGN_UP_page (val : Nat) :
    ALIGN_UP val PAGE_SIZE = (val + 0xfff) % 2 ^ 64 / 0x1000 * 0x1000 := by
  have h := and_mask ((val + 0xfff) % 2 ^ 64) 12 (by norm_num) (Nat.mod_lt _ (by norm_num))
  simp only [ALIGN_UP, PAGE_SIZE, WORD]
  norm_num at h ⊢
  exact h

/-- Rounding: `ALIGN_UP` to 8 is the wrapped sum rounded down to a multiple of 8. -/
theorem ALIGN_UP_8 (val : Nat) :
    ALIGN_UP val 0x8 = (val + 7) % 2 ^ 64 / 8 * 8 := by
  have h := and_mask ((val + 7) % 2 ^ 64) 3 (by norm_num) (Nat.mod_lt _ (by norm_num))
  simp only [ALIGN_UP, WORD]
  norm_num at h ⊢
  exact h

/-! ## Range table -/

theorem append_range_count_le (s : State) (p : Option mmap_params) (path : String)
    (h0 : 0 ≤ s.range_count) (h32 : s.range_count ≤ 32) :
    0 ≤ (append_mmap_exec_region s p path).1.range_count ∧
      (append_mmap_exec_region s p path).1.range_count ≤ 32 := by
  unfold append_mmap_exec_region
  cases p with
  | none => exact ⟨h0, h32⟩
  | some q =>
    simp only [RANGE_MAX]
    split_ifs with h1 h2
    · exact ⟨h0, h32⟩
    · exact ⟨h0, h32⟩
    · simp only [ge_iff_le, not_le, Nat.cast_ofNat] at h2
      constructor <;> simp only <;> omega

theorem append_all_range_count_le (cs : List (Option mmap_params × String)) :
    ∀ s : State, 0 ≤ s.range_count → s.range_count ≤ 32 →
      0 ≤ (append_all s cs).range_count ∧ (append_all s cs).range_count ≤ 32 := by
  induction cs with
  | nil => intro s h0 h32; exact ⟨h0, h32⟩
  | cons c cs ih =>
    intro s h0 h32
    have h := append_range_count_le s c.1 c.2 h0 h32
    exact ih _ h.1 h.2

theorem append_full (s : State) (p : Option mmap_params) (path : String)
    (h : s.range_count = 32) : append_mmap_exec_region s p path = (s, none) := by
  unfold append_mmap_exec_region
  cases p with
  | none => rfl
  | some q => simp [RANGE_MAX, h]

theorem append_all_full (cs : List (Option mmap_params × String)) (s : State)
    (h : s.range_count = 32) : append_all s cs = s := by
  induction cs with
  | nil => rfl
  | cons c cs ih => simp [append_all, append_full s c.1 c.2 h, ih]

theorem append_all_append (cs ds : List (Option mmap_params × String)) :
    ∀ s : State, append_all s (cs ++ ds) = append_all (append_all s cs) ds := by
  induction cs with
  | nil => intro s; rfl
  | cons c cs ih => intro s; simp [append_all, ih]

theorem append_qualifying (s : State) (q : mmap_params × String) (hq : qualifies q.1)
    (h : s.range_count < 32) :
    append_mmap_exec_region s (some q.1) q.2 =
      ({ s with range := s.range.set s.range_count.toNat (entry_of q.1 q.2)
                range_count := s.range_count + 1 }, some s.range_count.toNat) := by
  obtain ⟨h1, h2⟩ := hq
  unfold append_mmap_exec_region
  have h3 : ¬ (s.range_count ≥ ((RANGE_MAX : Nat) : Int)) := by
    simp only [RANGE_MAX, Nat.cast_ofNat]; omega
  have h4 : ¬ (Int.land q.1.prot PROT_EXEC = 0 ∨ q.1.fd < 3) := by
    intro h; rcases h with h | h
    · exact h1 h
    · omega
  simp only [h3, h4, if_false, entry_of]

theorem append_all_qualifying (qs : List (mmap_params × String)) :
    ∀ (s : State) (pre rest : List addr_range), (∀ q ∈ qs, qualifies q.1) →
      s.range = pre ++ rest → s.range_count = pre.length → qs.length ≤ rest.length →
      pre.length + rest.length = 32 →
      (append_all s (qs.map call_of)).range =
          pre ++ qs.map (fun q => entry_of q.1 q.2) ++ rest.drop qs.length ∧
        (append_all s (qs.map call_of)).range_count = pre.length + qs.length := by
  induction qs with
  | nil => intro s pre rest _ hr hc _ _; simp [append_all, hr, hc]
  | cons q qs ih =>
    intro s pre rest hq hr hc hlen htot
    cases rest with
    | nil => simp at hlen
    | cons r rest =>
      simp only [List.length_cons] at hlen htot
      have hlt : s.range_count < 32 := by omega
      have hstep := append_qualifying s q (hq q (List.mem_cons_self _ _)) hlt
      simp only [List.map_cons, append_all, call_of, hstep]
      have hset : s.range.set s.range_count.toNat (entry_of q.1 q.2) =
          (pre ++ [entry_of q.1 q.2]) ++ rest := by
        rw [hr, hc, Int.toNat_ofNat, List.set_append_right _ _ (le_refl _)]
        simp
      have := ih { s with range := s.range.set s.range_count.toNat (entry_of q.1 q.2)
                          range_count := s.range_count + 1 }
        (pre ++ [entry_of q.1 q.2]) rest
        (fun q' hq' => hq q' (List.mem_cons_of_mem _ hq')) hset
        (by simp [hc]) (by omega) (by simp; omega)
      obtain ⟨h1, h2⟩ := this
      refine ⟨?_, ?_⟩
      · rw [h1]; simp
      · rw [h2]; simp; omega

/-- C1: starting from a range table with `0 ≤ range_count ≤ RANGE_MAX`, after
any sequence of `append_mmap_exec_region` calls with arbitrary parameters
`range_count` is still between 0 and `RANGE_MAX`; a call made on a full
table returns `NULL` and leaves the whole state unchanged; and 40 calls that
pass the guard, made on an empty table of 32 slots, leave `range_count = 32`
and the table equal to the entries of the first 32 calls, in call order. -/
theorem range_table_capacity (s : State) (cs : List (Option mmap_params × String))
    (qs : List (mmap_params × String))
    (h0 : 0 ≤ s.range_count) (h32 : s.range_count ≤ (RANGE_MAX : Int)) :
    (0 ≤ (append_all s cs).range_count ∧ (append_all s cs).range_count ≤ (RANGE_MAX : Int)) ∧
    (∀ p path, (append_all s cs).range_count = (RANGE_MAX : Int) →
      append_mmap_exec_region (append_all s cs) p path = (append_all s cs, none)) ∧
    (s.range_count = 0 → s.range.length = RANGE_MAX → qs.length = 40 →
      (∀ q ∈ qs, qualifies q.1) →
      (append_all s (qs.map call_of)).range_count = (RANGE_MAX : Int) ∧
      (append_all s (qs.map call_of)).range =
        (qs.take RANGE_MAX).map (fun q => entry_of q.1 q.2)) := by
  simp only [RANGE_MAX, Nat.cast_ofNat] at h32 ⊢
  refine ⟨append_all_range_count_le cs s h0 h32, fun p path h => append_full _ p path h, ?_⟩
  intro hc hlen hq40 hq
  have hsplit : qs.map call_of = (qs.take 32).map call_of ++ (qs.drop 32).map call_of := by
    rw [← List.map_append, List.take_append_drop]
  have htake : (qs.take 32).length = 32 := by simp [hq40]
  have h := append_all_qualifying (qs.take 32) s [] s.range
    (fun q hq' => hq q (List.mem_of_mem_take hq')) (by simp) (by simpa using hc)
    (by omega) (by simpa using hlen)
  obtain ⟨hr, hn⟩ := h
  have hn32 : (append_all s ((qs.take 32).map call_of)).range_count = 32 := by
    rw [hn, htake]; rfl
  rw [hsplit, append_all_append, append_all_full _ _ hn32]
  refine ⟨hn32, ?_⟩
  rw [hr, htake, List.drop_of_length_le (by omega)]
  simp

/-- C1 at a concrete input: the mixed calls keep an empty table within its
bound and the forty mmaps fill it with the first 32. -/
theorem range_table_capacity_witness :
    (0 ≤ fresh.range_count ∧ fresh.range_count ≤ (RANGE_MAX : Int)) ∧
    (append_all fresh mixed_calls).range_count ≤ (RANGE_MAX : Int) ∧
    (append_all fresh (forty_mmaps.map call_of)).range_count = (RANGE_MAX : Int) ∧
    (append_all fresh (forty_mmaps.map call_of)).range =
      (forty_mmaps.take RANGE_MAX).map (fun q => entry_of q.1 q.2) :=
  have h := range_table_capacity fresh mixed_calls forty_mmaps (by decide) (by decide)
  ⟨by decide, h.1.2, h.2.2 rfl rfl rfl (by decide)⟩

/-- C2, as stated, fails: the entry written for the exit stop of an mmap call
that failed with `ENOMEM` starts at `0xfffffffffffffff4` and ends at `0x1000`,
so `start < end` does not hold for it. -/
theorem entry_start_lt_end_fails :
    (append_mmap_exec_region fresh (some failed_mmap_params) "/usr/lib/libfoo.so").2 = some 0 ∧
    (append_mmap_exec_region fresh (some failed_mmap_params) "/usr/lib/libfoo.so").1.range[0]? =
      some { start := 0xfffffffffffffff4, end_ := 0x1000, path := "/usr/lib/libfoo.so" } ∧
    ¬ ((0xfffffffffffffff4 : Nat) < 0x1000) := by
  decide

/-- C2, amended: the entry that `append_mmap_exec_region` writes has
`start = addr`, `end = ALIGN_UP(start + length, PAGE_SIZE)` in 64-bit unsigned
arithmetic and `end` is a multiple of `PAGE_SIZE`; `start < end` holds whenever
`length > 0` and `start + length + (PAGE_SIZE - 1)` does not exceed 64 bits. -/
theorem entry_end_aligned (s : State) (p : mmap_params) (path : String) (i : Nat)
    (r : addr_range)
    (hret : (append_mmap_exec_region s (some p) path).2 = some i)
    (hr : (append_mmap_exec_region s (some p) path).1.range[i]? = some r) :
    r.start = p.addr % WORD ∧
    r.end_ = ALIGN_UP ((r.start + p.length) % WORD) PAGE_SIZE ∧
    r.end_ % PAGE_SIZE = 0 ∧
    (0 < p.length → r.start + p.length + (PAGE_SIZE - 1) < WORD → r.start < r.end_) := by
  unfold append_mmap_exec_region at hret hr
  simp only at hret hr
  split_ifs at hret hr with h1 h2
  simp only [Option.some.injEq] at hret
  subst hret
  simp only at hr
  by_cases hlt : s.range_count.toNat < s.range.length
  · rw [List.getElem?_set_self hlt] at hr
    simp only [Option.some.injEq] at hr
    subst hr
    simp only [true_and]
    rw [ALIGN_UP_page]
    simp only [PAGE_SIZE, WORD]
    refine ⟨by omega, ?_⟩
    intro hpos hfit
    omega
  · rw [List.getElem?_eq_none (by simpa using hlt)] at hr
    simp at hr

/-- C2, amended, at a concrete input: the entry written for a two-page
executable mapping. -/
theorem entry_end_aligned_witness :
    (0x7f0000020000 : Nat) < 0x7f0000022000 ∧ 0x7f0000022000 % PAGE_SIZE = 0 :=
  have h := entry_end_aligned fresh good_mmap_params "/usr/lib/libc.so" 0
    { start := 0x7f0000020000, end_ := 0x7f0000022000, path := "/usr/lib/libc.so" }
    (by decide) (by decide)
  ⟨h.2.2.2 (by decide) (by decide), h.2.2.1⟩

/-! ## Syscall stops -/

/-- C3, as stated, fails: at the exit stop of an mmap call that failed (the
return value in `x0` is `-12`) with `PROT_EXEC` set and file descriptor 3, the
supervisor appends a range: `range_count` goes from 0 to 1 and slot 0 holds an
entry that starts at the error value. -/
theorem failed_mmap_is_enrolled :
    to_long (failed_mmap_regs.regs 0) = -12 ∧
    fresh_in_mmap.range_count = 0 ∧
    (parent_syscall_stop fresh_in_mmap (some failed_mmap_regs) (some failed_mmap_regs)
      "/usr/lib/libfoo.so").range_count = 1 ∧
    (parent_syscall_stop fresh_in_mmap (some failed_mmap_regs) (some failed_mmap_regs)
      "/usr/lib/libfoo.so").range[0]? =
        some { start := 0xfffffffffffffff4, end_ := 0x1000, path := "/usr/lib/libfoo.so" } := by
  decide

/-- C3, amended: the handling of a syscall stop leaves `range_count` and the
range table unchanged unless the register read succeeds, `x8` is `__NR_mmap`,
the in-mmap toggle is set, `prot` in `x2` has `PROT_EXEC` set, the file
descriptor in `x4` is at least 3 and `range_count` is below `RANGE_MAX`; in
particular it leaves them unchanged when `PROT_EXEC` is clear or the
descriptor is below 3.  When all of these hold and `0 ≤ range_count`, one
entry is appended at slot `range_count`, and it starts at the value of `x0`,
which is not inspected. -/
theorem syscall_stop_guard (s : State) (regs regs2 : Option user_pt_regs) (path : String) :
    (¬ (∃ r, regs = some r ∧ to_long (r.regs 8) = NR_mmap ∧ s.is_entered_mmap = true ∧
          Int.land (to_int (r.regs 2)) PROT_EXEC ≠ 0 ∧ 3 ≤ to_int (r.regs 4) ∧
          s.range_count < (RANGE_MAX : Int)) →
        (parent_syscall_stop s regs regs2 path).range_count = s.range_count ∧
        (parent_syscall_stop s regs regs2 path).range = s.range) ∧
    (∀ r, regs = some r → to_long (r.regs 8) = NR_mmap → s.is_entered_mmap = true →
        Int.land (to_int (r.regs 2)) PROT_EXEC ≠ 0 → 3 ≤ to_int (r.regs 4) →
        0 ≤ s.range_count → s.range_count < (RANGE_MAX : Int) →
        (parent_syscall_stop s regs regs2 path).range_count = s.range_count + 1 ∧
        (parent_syscall_stop s regs regs2 path).range =
          s.range.set s.range_count.toNat
            { start := r.regs 0 % WORD
              end_ := ALIGN_UP ((r.regs 0 % WORD + r.regs 1 % WORD) % WORD) PAGE_SIZE
              path := path }) := by
  constructor
  · intro hno
    unfold parent_syscall_stop
    cases regs with
    | none =>
      simp only [get_mmap_params]
      split_ifs <;> exact ⟨rfl, rfl⟩
    | some r =>
      by_cases h8 : to_long (r.regs 8) = NR_mmap
      · simp only [get_mmap_params, h8, ne_eq, not_true_eq_false, if_false]
        by_cases hin : s.is_entered_mmap = true
        · simp only [hin, if_true]
          unfold append_mmap_exec_region
          simp only [Nat.mod_mod]
          split_ifs with h1 h2
          · exact ⟨rfl, rfl⟩
          · exact ⟨rfl, rfl⟩
          · exfalso
            apply hno
            refine ⟨r, rfl, h8, hin, ?_, ?_, ?_⟩
            · intro h; exact h1 (Or.inl h)
            · by_contra h; exact h1 (Or.inr (by omega))
            · omega
        · simp [hin]
      · simp only [get_mmap_params, ne_eq, h8, not_false_eq_true, if_true]
        split_ifs <;> exact ⟨rfl, rfl⟩
  · intro r hr h8 hin hp hfd _ h32
    subst hr
    have h1 : ¬ (Int.land (to_int (r.regs 2)) PROT_EXEC = 0 ∨ to_int (r.regs 4) < 3) := by
      intro h
      rcases h with h | h
      · exact hp h
      · omega
    have h2 : ¬ (s.range_count ≥ (RANGE_MAX : Int)) := by omega
    unfold parent_syscall_stop
    simp only [get_mmap_params, h8, ne_eq, not_true_eq_false, if_false, hin, if_true]
    unfold append_mmap_exec_region
    simp only [Nat.mod_mod, h1, h2, if_false]
    exact ⟨trivial, trivial⟩

/-- C3, amended, at a concrete input: at the exit stop of an mmap call that
succeeded, with the toggle set, the mapping is appended at slot 0. -/
theorem syscall_stop_guard_witness :
    (parent_syscall_stop fresh_in_mmap (some mmap_exit_regs) none "/usr/lib/liba.so").range_count
      = fresh_in_mmap.range_count + 1 ∧
    (parent_syscall_stop fresh_in_mmap (some mmap_exit_regs) none "/usr/lib/liba.so").range[0]? =
      some { start := 0x7f0000030000, end_ := 0x7f0000031000, path := "/usr/lib/liba.so" } :=
  ⟨((syscall_stop_guard fresh_in_mmap (some mmap_exit_regs) none "/usr/lib/liba.so").2
      mmap_exit_regs rfl (by decide) (by decide) (by decide) (by decide) (by decide)
      (by decide)).1,
    by decide⟩

/-! ## Trace buffer -/

theorem ptr_diff_of_le (p q : Nat) (hq : q ≤ p) (hp : p < WORD) : ptr_diff p q = p - q := by
  simp only [ptr_diff, WORD] at *
  omega

theorem fetch_trace_read_inv (s : State) (limit : Nat) (rd : Nat → Int)
    (hrd : rd limit ≤ (limit : Int)) (hs : buf_inv s)
    (hlim : s.trace_buf_ptr + limit ≤ s.trace_buf + s.trace_buf_size) :
    buf_inv (fetch_trace_read s limit rd) := by
  obtain ⟨h1, h2, h3, h4, h5⟩ := hs
  unfold fetch_trace_read
  simp only [State.log]
  split_ifs with hn
  · exact ⟨h1, h2, h3, h4, h5⟩
  · simp only [buf_inv, WORD] at *
    refine ⟨h1, h2, h3, ?_, ?_⟩ <;> omega

theorem fetch_trace_inv (s : State) (new_trace_buf : Nat) (rd : Nat → Int)
    (hrd : ∀ limit : Nat, rd limit ≤ (limit : Int)) (h8 : new_trace_buf % 8 = 0)
    (hfit : new_trace_buf + 2 * s.trace_buf_size < WORD) (hs : buf_inv s) :
    buf_inv (fetch_trace s new_trace_buf rd) := by
  obtain ⟨h1, h2, h3, h4, h5⟩ := hs
  have ha : s.trace_buf_ptr ≤ ALIGN_UP s.trace_buf_ptr 0x8 ∧
      ALIGN_UP s.trace_buf_ptr 0x8 ≤ s.trace_buf + s.trace_buf_size := by
    rw [ALIGN_UP_8]; simp only [WORD] at *; omega
  obtain ⟨ha1, ha2⟩ := ha
  have hd : ptr_diff (ALIGN_UP s.trace_buf_ptr 0x8) s.trace_buf =
      ALIGN_UP s.trace_buf_ptr 0x8 - s.trace_buf :=
    ptr_diff_of_le _ _ (by omega) (by omega)
  have hs1 : buf_inv { s with trace_buf_ptr := ALIGN_UP s.trace_buf_ptr 0x8 } :=
    ⟨h1, h2, h3, by simp only; omega, ha2⟩
  unfold fetch_trace
  simp only [hd, State.log]
  split_ifs with hgrow hnull
  · exact hs1
  · have hp : (new_trace_buf + (ALIGN_UP s.trace_buf_ptr 0x8 - s.trace_buf)) % WORD =
        new_trace_buf + (ALIGN_UP s.trace_buf_ptr 0x8 - s.trace_buf) := by
      apply Nat.mod_eq_of_lt; omega
    have hsz : s.trace_buf_size * 2 % WORD = s.trace_buf_size * 2 := by
      apply Nat.mod_eq_of_lt; omega
    simp only [hp, hsz]
    have hd2 : ptr_diff (new_trace_buf + (ALIGN_UP s.trace_buf_ptr 0x8 - s.trace_buf))
        new_trace_buf = ALIGN_UP s.trace_buf_ptr 0x8 - s.trace_buf := by
      rw [ptr_diff_of_le _ _ (by omega) (by omega)]; omega
    rw [hd2]
    apply fetch_trace_read_inv _ _ _ (hrd _)
    · refine ⟨h8, by simp only; omega, by simp only; omega, by simp only; omega,
        by simp only; omega⟩
    · simp only; omega
  · apply fetch_trace_read_inv _ _ _ (hrd _) hs1
    have : (s.trace_buf_size + WORD - (ALIGN_UP s.trace_buf_ptr 0x8 - s.trace_buf)) % WORD =
        s.trace_buf_size - (ALIGN_UP s.trace_buf_ptr 0x8 - s.trace_buf) := by
      simp only [WORD] at *; omega
    simp only [this]; omega

theorem drains_inv (ds : List Drain) :
    ∀ s : State, buf_inv s → drains_ok s ds → buf_inv (drains s ds) := by
  induction ds with
  | nil => intro s hs _; exact hs
  | cons d ds ih =>
    intro s hs hok
    obtain ⟨⟨hrd, h8, hfit⟩, hrest⟩ := hok
    exact ih _ (fetch_trace_inv _ _ _ hrd h8 hfit hs) hrest

theorem sink_read_le (unread : Int) (limit : Nat) : sink_read unread limit ≤ (limit : Int) :=
  min_le_right _ _

theorem ptr_diff_add (q off : Nat) (h : off < WORD) : ptr_diff ((q + off) % WORD) q = off := by
  simp only [ptr_diff, WORD] at *
  omega

theorem ptr_diff_add_add (q off n : Nat) (h : off + n < WORD) :
    ptr_diff (((q + off) % WORD + n) % WORD) q = off + n := by
  have e : ((q + off) % WORD + n) % WORD = (q + (off + n)) % WORD := by
    rw [Nat.add_mod, Nat.mod_mod, ← Nat.add_mod, Nat.add_assoc]
  rw [e, ptr_diff_add _ _ h]

theorem fetch_trace_read_diff (s : State) (limit off : Nat) (rd : Nat → Int)
    (hrd : rd limit ≤ (limit : Int)) (hoff : off + limit < WORD)
    (hp : s.trace_buf_ptr = (s.trace_buf + off) % WORD) :
    (fetch_trace_read s limit rd).trace_buf = s.trace_buf ∧
    (fetch_trace_read s limit rd).trace_buf_size = s.trace_buf_size ∧
    ptr_diff (fetch_trace_read s limit rd).trace_buf_ptr s.trace_buf ≤ off + limit := by
  unfold fetch_trace_read
  simp only [State.log]
  split_ifs with hn
  · refine ⟨rfl, rfl, ?_⟩
    simp only [hp]
    rw [ptr_diff_add _ _ (by omega)]; omega
  · refine ⟨rfl, rfl, ?_⟩
    simp only [hp]
    rw [ptr_diff_add_add _ _ _ (by omega)]; omega

/-- One `fetch_trace` call keeps `head - base ≤ size` whatever address `mremap`
answers, `MAP_FAILED` included, as long as doubling the size does not wrap. -/
theorem fetch_trace_any_remap (s : State) (new_trace_buf : Nat) (rd : Nat → Int)
    (hrd : ∀ limit : Nat, rd limit ≤ (limit : Int)) (hw : 2 * s.trace_buf_size < WORD)
    (hs : buf_inv s) :
    ptr_diff (fetch_trace s new_trace_buf rd).trace_buf_ptr
        (fetch_trace s new_trace_buf rd).trace_buf ≤
      (fetch_trace s new_trace_buf rd).trace_buf_size := by
  obtain ⟨h1, h2, h3, h4, h5⟩ := hs
  have ha : s.trace_buf_ptr ≤ ALIGN_UP s.trace_buf_ptr 0x8 ∧
      ALIGN_UP s.trace_buf_ptr 0x8 ≤ s.trace_buf + s.trace_buf_size := by
    rw [ALIGN_UP_8]; simp only [WORD] at *; omega
  obtain ⟨ha1, ha2⟩ := ha
  have hd : ptr_diff (ALIGN_UP s.trace_buf_ptr 0x8) s.trace_buf =
      ALIGN_UP s.trace_buf_ptr 0x8 - s.trace_buf :=
    ptr_diff_of_le _ _ (by omega) (by omega)
  generalize hoff : ALIGN_UP s.trace_buf_ptr 0x8 - s.trace_buf = off at hd
  have hoffle : off ≤ s.trace_buf_size := by omega
  have hsz : s.trace_buf_size * 2 % WORD = s.trace_buf_size * 2 :=
    Nat.mod_eq_of_lt (by omega)
  unfold fetch_trace
  simp only [hd, State.log]
  split_ifs with hgrow hnull
  · simp only [hd]; exact hoffle
  · rw [ptr_diff_add _ _ (by omega), hsz]
    have h := fetch_trace_read_diff
      { s with
        trace_buf_ptr := (new_trace_buf + off) % WORD
        trace_buf := new_trace_buf
        trace_buf_size := s.trace_buf_size * 2
        calls := s.calls ++
          [Call.mremap s.trace_buf s.trace_buf_size (s.trace_buf_size * 2) new_trace_buf] }
      off off rd (hrd _) (by omega) rfl
    obtain ⟨e1, e2, e3⟩ := h
    rw [e1, e2]
    exact le_trans e3 (by simp only; omega)
  · have hrem : (s.trace_buf_size + WORD - off) % WORD = s.trace_buf_size - off := by
      simp only [WORD] at *; omega
    rw [hrem]
    have h := fetch_trace_read_diff
      { s with trace_buf_ptr := ALIGN_UP s.trace_buf_ptr 0x8 }
      (s.trace_buf_size - off) off rd (hrd _) (by omega)
      (by
        have e : ALIGN_UP s.trace_buf_ptr 0x8 = s.trace_buf + off := by omega
        simp only [e]
        exact (Nat.mod_eq_of_lt (by omega)).symm)
    obtain ⟨e1, e2, e3⟩ := h
    rw [e1, e2]
    exact le_trans e3 (by simp only; omega)

/-- The invariant with allocator answers that are valid: after `init_trace_buf`
(with `mmap` returning a non-null 8-byte aligned address at which the buffer
ends below `2 ^ 64`) the head equals the base and the size is `0x80000`, and
after any sequence of `fetch_trace` calls, for every unread byte count that
the sink reports at each call, `head - base ≤ size` holds, provided each sink
read returns at most the limit it is given and each address returned by
`mremap` is `NULL` or an 8-byte aligned address at which the doubled buffer
ends below `2 ^ 64`. -/
theorem head_within_size (s : State) (m : Nat) (ds : List Drain)
    (hm0 : m ≠ 0) (hm8 : m % 8 = 0) (hmfit : m + DEFAULT_TRACE_SIZE < WORD)
    (hds : drains_ok (init_trace_buf s m).1 ds) :
    (init_trace_buf s m).1.trace_buf_ptr = (init_trace_buf s m).1.trace_buf ∧
    (init_trace_buf s m).1.trace_buf_size = 0x80000 ∧
    ptr_diff (drains (init_trace_buf s m).1 ds).trace_buf_ptr
        (drains (init_trace_buf s m).1 ds).trace_buf ≤
      (drains (init_trace_buf s m).1 ds).trace_buf_size := by
  have hinit : buf_inv (init_trace_buf s m).1 := by
    simp only [init_trace_buf, hm0, if_false, buf_inv, DEFAULT_TRACE_SIZE] at hmfit ⊢
    exact ⟨hm8, by norm_num, hmfit, le_refl _, by omega⟩
  have hfin := drains_inv ds _ hinit hds
  refine ⟨by simp [init_trace_buf, hm0], by simp [init_trace_buf, hm0, DEFAULT_TRACE_SIZE], ?_⟩
  obtain ⟨_, _, h3, h4, h5⟩ := hfin
  rw [ptr_diff_of_le _ _ h4 (by omega)]
  omega

/-- The invariant at a concrete run with valid allocator answers: a fresh
buffer, a drain that fits and a drain that grows the buffer. -/
theorem head_within_size_witness :
    ptr_diff (drains fresh_buf two_drains).trace_buf_ptr (drains fresh_buf two_drains).trace_buf ≤
      (drains fresh_buf two_drains).trace_buf_size :=
  (head_within_size fresh 0x7f0000000000 two_drains (by decide) (by decide) (by decide)
    ⟨⟨fun l => sink_read_le _ l, by decide, by decide⟩,
      ⟨fun l => sink_read_le _ l, by decide, by decide⟩, trivial⟩).2.2

/-- C5 at the failing input: on a fresh buffer and a sink with `0x80001` unread
bytes `fetch_trace` grows the buffer to `0x100000` bytes and then offers the
sink a limit of 0 bytes (the head offset) where `size - (head - base)` is
`0x100000`; nothing is appended and the sink is not cleared.  On a buffer
that holds `0x1008` bytes and a sink with `0x80000` unread bytes the limit is
`0x1008`, only `0x1008` bytes are appended, and the sink is cleared. -/
theorem fetch_trace_growth_limit :
    (fetch_trace_sink full_sink 0x7f0000000000).trace_buf_size = 0x100000 ∧
    (fetch_trace_sink full_sink 0x7f0000000000).calls =
      [Call.mremap 0x7f0000000000 0x80000 0x100000 0x7f0000000000,
       Call.cs_get_trace_data 0x7f0000000000 0 0] ∧
    (fetch_trace_sink full_sink 0x7f0000000000).trace_buf_ptr = 0x7f0000000000 ∧
    (fetch_trace_sink full_sink 0x7f0000000000).sink_unread = 0x80001 ∧
    (fetch_trace_sink partly_filled 0x7f0000000000).calls =
      [Call.mremap 0x7f0000000000 0x80000 0x100000 0x7f0000000000,
       Call.cs_get_trace_data 0x7f0000001008 0x1008 0x1008,
       Call.cs_empty_trace_buffer] ∧
    (fetch_trace_sink partly_filled 0x7f0000000000).trace_buf_ptr = 0x7f0000002010 ∧
    (fetch_trace_sink partly_filled 0x7f0000000000).sink_unread = 0 := by
  decide

/-- C6 at the failing input: with a fresh buffer and `0x80001` unread bytes in
the sink, the first `stop_trace; fetch_trace` round reads nothing and leaves
the sink as it is, and the second round, with no byte entering the sink in
between, advances the head by `0x80001` trace bytes. -/
theorem second_drain_reads_bytes :
    (stop_drain full_sink 0x7f0000000000).trace_buf_ptr = 0x7f0000000000 ∧
    (stop_drain full_sink 0x7f0000000000).sink_unread = 0x80001 ∧
    (stop_drain (stop_drain full_sink 0x7f0000000000) 0x7f0000000000).trace_buf_ptr =
      0x7f0000000000 + 0x80001 ∧
    (stop_drain (stop_drain full_sink 0x7f0000000000) 0x7f0000000000).sink_unread = 0 := by
  decide

/-! ## The log of collaborator calls -/

theorem files_written_append (a b : List Call) :
    files_written (a ++ b) = files_written a ++ files_written b := by
  induction a with
  | nil => rfl
  | cons c a ih => cases c <;> simp [files_written, ih]

theorem foldl_log (f : Nat → Call) (l : List Nat) :
    ∀ s : State, l.foldl (fun st i => st.log (f i)) s = { s with calls := s.calls ++ l.map f } := by
  induction l with
  | nil => intro s; simp
  | cons i l ih => intro s; rw [List.foldl_cons, ih]; simp [State.log]

theorem for_each_cpu_eq (s : State) (f : Nat → Call) :
    for_each_cpu s f = { s with calls := s.calls ++ (List.range s.n_cpu).map f } :=
  foldl_log f _ s

theorem stop_trace_eq (s : State) :
    stop_trace s = { s with trace_started := false, calls := s.calls ++ stop_trace_calls s } := by
  unfold stop_trace stop_trace_calls
  simp only [for_each_cpu_eq, State.log]
  split_ifs <;> simp

theorem fini_trace_exit_files (s : State) :
    files_written (fini_trace_exit s).calls = files_written s.calls ∧
      (fini_trace_exit s).needs_rerun = s.needs_rerun := by
  unfold fini_trace_exit
  simp only [State.log]
  split_ifs <;> simp [files_written_append, files_written]

theorem fini_trace_export_files (s : State) (cwd : Option String) (args_ok fopen_ok : Bool) :
    files_written (fini_trace_export s cwd args_ok fopen_ok).calls =
        files_written s.calls ++
          (match cwd with
           | some d =>
             if args_ok && fopen_ok then [(trace_path s d, ptr_diff s.trace_buf_ptr s.trace_buf)]
             else []
           | none => []) ∧
      (fini_trace_export s cwd args_ok fopen_ok).needs_rerun = s.needs_rerun := by
  unfold fini_trace_export
  cases cwd with
  | none => simp
  | some d =>
    cases args_ok <;> cases fopen_ok <;>
      simp [fini_trace_exit_files, State.log, files_written_append, files_written]

/-- C9, as stated, fails in both directions: in a one-shot run without decoding
the raw trace is written to `cstrace.bin` although `export_config` is false
and `needs_rerun` is false; and with `export_config` true but an unknown trace
id nothing is written. -/
theorem raw_trace_export_not_iff :
    one_shot_at_exit.export_config = false ∧
    (fini_trace one_shot_at_exit true true (some "/home/user") true true).needs_rerun = false ∧
    files_written (fini_trace one_shot_at_exit true true (some "/home/user") true true).calls =
      [("/home/user/cstrace.bin", 0x100)] ∧
    export_without_trace_id.export_config = true ∧
    files_written
      (fini_trace export_without_trace_id true true (some "/home/user") true true).calls = [] := by
  decide

/-- C9, amended: `fini_trace` sets `needs_rerun` exactly when the decoder is
called (decoding is asked for by `forkserver_mode` or `decoding_on`, a decoder
exists or can be made, and `trace_id ≥ 0`) and returns something other than
success; and it writes the `head - base` bytes of the trace buffer to the trace
file exactly when a decoder is at hand if decoding is asked for, `trace_id ≥ 0`,
decoding is not asked for or `export_config` or `needs_rerun` holds after the
decode step, and `getcwd`, `export_decoder_args` and `fopen` all succeed. -/
theorem fini_trace_export_policy (s : State) (init_ok dec_ok : Bool) (cwd : Option String)
    (args_ok fopen_ok : Bool) :
    (fini_trace s init_ok dec_ok cwd args_ok fopen_ok).needs_rerun =
        (s.needs_rerun ||
          ((s.forkserver_mode || s.decoding_on) && (s.decoder || init_ok) &&
            decide (0 ≤ s.trace_id) && !dec_ok)) ∧
      files_written (fini_trace s init_ok dec_ok cwd args_ok fopen_ok).calls =
        files_written s.calls ++
          (match cwd with
           | some d =>
             if (!(s.forkserver_mode || s.decoding_on) || (s.decoder || init_ok)) &&
                 decide (0 ≤ s.trace_id) &&
                 (!(s.forkserver_mode || s.decoding_on) || s.export_config ||
                   (fini_trace s init_ok dec_ok cwd args_ok fopen_ok).needs_rerun) &&
                 args_ok && fopen_ok
             then [(trace_path s d, ptr_diff s.trace_buf_ptr s.trace_buf)]
             else []
           | none => []) := by
  by_cases hid : 0 ≤ s.trace_id
  · have hid2 : ¬ s.trace_id < 0 := by omega
    cases cwd <;> cases hf : s.forkserver_mode <;> cases hd : s.decoding_on <;>
      cases hdec : s.decoder <;> cases init_ok <;> cases dec_ok <;>
      cases hx : s.export_config <;> cases hr : s.needs_rerun <;>
      simp [fini_trace, ensure_decoder, State.log, fini_trace_export_files, files_written_append,
        files_written, trace_path, hf, hd, hdec, hx, hr, hid, hid2]
  · have hid2 : s.trace_id < 0 := by omega
    cases cwd <;> cases hf : s.forkserver_mode <;> cases hd : s.decoding_on <;>
      cases hdec : s.decoder <;> cases init_ok <;>
      simp [fini_trace, ensure_decoder, State.log, files_written_append,
        files_written, hf, hd, hdec, hid, hid2]

/-! ## Forkserver stop -/

/-- What `fetch_trace` leaves alone: it writes no file and changes none of the
mode flags, the decoder, the trace id, `needs_rerun`, `count`, `trace_started`
and `is_first_trace`. -/
theorem fetch_trace_frame (s : State) (new_trace_buf : Nat) (rd : Nat → Int) :
    files_written (fetch_trace s new_trace_buf rd).calls = files_written s.calls ∧
    (fetch_trace s new_trace_buf rd).forkserver_mode = s.forkserver_mode ∧
    (fetch_trace s new_trace_buf rd).decoding_on = s.decoding_on ∧
    (fetch_trace s new_trace_buf rd).decoder = s.decoder ∧
    (fetch_trace s new_trace_buf rd).trace_id = s.trace_id ∧
    (fetch_trace s new_trace_buf rd).needs_rerun = s.needs_rerun ∧
    (fetch_trace s new_trace_buf rd).count = s.count ∧
    (fetch_trace s new_trace_buf rd).trace_started = s.trace_started ∧
    (fetch_trace s new_trace_buf rd).is_first_trace = s.is_first_trace ∧
    (fetch_trace s new_trace_buf rd).tracing_on = s.tracing_on ∧
    (fetch_trace s new_trace_buf rd).export_config = s.export_config := by
  unfold fetch_trace fetch_trace_read
  simp only [State.log]
  split_ifs <;> simp [files_written_append, files_written]

theorem hw_active_append (a b : List Call) :
    hw_active (a ++ b) = b.foldl hw_step (hw_active a) := by
  simp [hw_active, List.foldl_append]

theorem start_trace_cases (s : State) (pid : Int) (cfg_ok en_ok : Bool) :
    ((start_trace s pid cfg_ok en_ok).2 = 0 ∧
        (start_trace s pid cfg_ok en_ok).1.trace_started = true ∧
        hw_active (start_trace s pid cfg_ok en_ok).1.calls = true) ∨
      ((start_trace s pid cfg_ok en_ok).2 = -1 ∧
        (start_trace s pid cfg_ok en_ok).1.trace_started = s.trace_started ∧
        hw_active (start_trace s pid cfg_ok en_ok).1.calls = false) := by
  cases hf : s.is_first_trace <;> cases cfg_ok <;> cases en_ok <;>
    cases hx : s.export_config <;>
    simp [start_trace, State.log, hw_active_append, hw_step, hf, hx]

theorem stop_trace_not_started (s : State) : (stop_trace s).trace_started = false := by
  rw [stop_trace_eq]

theorem run_op_started (s : State) (op : Op)
    (h0 : s.trace_started = true → hw_active s.calls = true) (hd : ¬ failed_restart s op) :
    (run_op s op).trace_started = true → hw_active (run_op s op).calls = true := by
  cases op with
  | start pid cfg_ok en_ok =>
    simp only [run_op]
    rcases start_trace_cases s pid cfg_ok en_ok with ⟨_, _, h⟩ | ⟨hr, ht, _⟩
    · exact fun _ => h
    · intro hs
      rw [ht] at hs
      exact absurd ⟨hs, by rw [hr]; decide⟩ hd
  | stop =>
    simp only [run_op, stop_trace_not_started]
    intro h; cases h
  | fetch d =>
    simp only [run_op, drain]
    obtain ⟨_, _, _, _, _, _, _, h8, _⟩ :=
      fetch_trace_frame { s with sink_unread := d.unread } d.new_trace_buf d.rd
    rw [h8]
    intro hs
    have := h0 hs
    revert this
    unfold fetch_trace fetch_trace_read
    simp only [State.log]
    split_ifs <;> simp [hw_active_append, hw_step]
  | sigstop pid d cfg_ok en_ok =>
    simp only [run_op, parent_sigstop]
    split_ifs with hto
    · obtain ⟨_, _, _, _, _, _, _, h8, _⟩ :=
        fetch_trace_frame (stop_trace { s with sink_unread := d.unread }) d.new_trace_buf d.rd
      rw [stop_trace_not_started] at h8
      rcases start_trace_cases
        (fetch_trace (stop_trace { s with sink_unread := d.unread }) d.new_trace_buf d.rd)
        pid cfg_ok en_ok with ⟨_, _, h⟩ | ⟨_, ht, _⟩
      · exact fun _ => h
      · rw [ht, h8]; intro h; cases h
    · exact h0
  | afl_start pid m cfg_ok en_ok =>
    simp only [run_op, afl_start_trace]
    have hts : (init_trace_buf (set_cpu_affinity s) m).1.trace_started = s.trace_started := by
      unfold init_trace_buf set_cpu_affinity
      simp only [State.log]
      split_ifs <;> rfl
    have hto : (init_trace_buf (set_cpu_affinity s) m).1.tracing_on = s.tracing_on := by
      unfold init_trace_buf set_cpu_affinity
      simp only [State.log]
      split_ifs <;> rfl
    have hhw : hw_active (init_trace_buf (set_cpu_affinity s) m).1.calls = hw_active s.calls := by
      unfold init_trace_buf set_cpu_affinity
      simp only [State.log]
      split_ifs <;> simp [hw_active_append, hw_step]
    split_ifs with hon
    · rcases start_trace_cases (init_trace_buf (set_cpu_affinity s) m).1 pid cfg_ok en_ok with
        ⟨_, _, h⟩ | ⟨hr, ht, _⟩
      · exact fun _ => h
      · intro hs
        rw [ht, hts] at hs
        rw [hto] at hon
        exact absurd ⟨hs, hon, by rw [hr]; decide⟩ hd
    · rw [hts, hhw]; exact h0
  | afl_stop d init_ok dec_ok =>
    intro hs
    exfalso
    revert hs
    simp only [run_op, afl_stop_trace]
    have h8 := (fetch_trace_frame (stop_trace { s with sink_unread := d.unread })
      d.new_trace_buf d.rd).2.2.2.2.2.2.2.1
    rw [stop_trace_not_started] at h8
    have hdt : ∀ t : State, (decode_trace t init_ok dec_ok).1.trace_started = t.trace_started := by
      intro t
      unfold decode_trace ensure_decoder
      simp only [State.log]
      split_ifs <;> rfl
    simp only [State.log]
    split_ifs <;> simp [hdt, h8]

/-- C7, as stated, fails: a `start_trace` that succeeds followed by a
`start_trace` whose `enable_trace` fails leaves `trace_started = true` while
the last hardware action is `cs_shutdown`. -/
theorem started_after_failed_restart :
    (run_ops fresh_buf [Op.start 100 true true, Op.start 100 true false]).trace_started = true ∧
    (run_ops fresh_buf [Op.start 100 true true, Op.start 100 true false]).calls =
      [Call.configure_trace 100 true, Call.enable_trace true, Call.cs_checkpoint,
       Call.enable_trace false, Call.cs_shutdown] ∧
    hw_active (run_ops fresh_buf [Op.start 100 true true, Op.start 100 true false]).calls
      = false := by
  decide

/-- C7, amended: from a state in which `trace_started = true` implies that the
hardware is enabled, after any session (calls of `start_trace`, `stop_trace`
and `fetch_trace`, watchdog restarts, forkserver run starts and stops, each
`configure_trace` and `enable_trace` free to succeed or fail) in which no
`start_trace` call fails while `trace_started` is already true,
`trace_started = true` implies that the sources are enabled and the sink is
active: the last enabling or disabling hardware action is a successful
`enable_trace`. -/
theorem started_implies_enabled (ops : List Op) (s : State)
    (h0 : s.trace_started = true → hw_active s.calls = true)
    (hd : no_failed_restart s ops) :
    (run_ops s ops).trace_started = true → hw_active (run_ops s ops).calls = true := by
  induction ops generalizing s with
  | nil => exact h0
  | cons op ops ih => exact ih (run_op s op) (run_op_started s op h0 hd.1) hd.2

/-- C7, amended, at a concrete input: a one-shot session with two watchdog
restarts, one of which fails, and a final start. -/
theorem started_implies_enabled_witness :
    (run_ops fresh_buf one_shot_session).trace_started = true ∧
    hw_active (run_ops fresh_buf one_shot_session).calls = true :=
  ⟨by decide,
    started_implies_enabled one_shot_session fresh_buf (by decide)
      ⟨by decide, by decide, by decide, by decide, trivial⟩ (by decide)⟩

/-! ## Configure and enable -/

theorem ordered_snoc (cs : List Call) (x : Call) (h : ordered cs)
    (he : is_enable x = true → 0 < cs.countP is_configure_ok)
    (hc : is_configure x = true → cs.countP is_configure_ok = 0) : ordered (cs ++ [x]) := by
  intro pre c post heq
  rcases List.eq_nil_or_concat post with rfl | ⟨post1, y, rfl⟩
  · obtain ⟨h1, h2⟩ := List.append_inj' heq rfl
    simp only [List.cons.injEq, and_true] at h2
    subst h1 h2
    exact ⟨he, hc⟩
  · rw [List.concat_eq_append, ← List.cons_append, ← List.append_assoc] at heq
    obtain ⟨h1, _⟩ := List.append_inj' heq rfl
    exact h pre c post1 h1

theorem not_ok_of_not_configure (x : Call) (h : is_configure x = false) :
    is_configure_ok x = false := by
  cases x <;> simp_all [is_configure, is_configure_ok]

theorem passive_append (extra : List Call)
    (hp : ∀ x ∈ extra, is_enable x = false ∧ is_configure x = false) :
    ∀ cs : List Call, ordered cs →
      ordered (cs ++ extra) ∧
        (cs ++ extra).countP is_configure_ok = cs.countP is_configure_ok := by
  induction extra with
  | nil => intro cs h; simpa using h
  | cons x extra ih =>
    intro cs h
    have hx := hp x (List.mem_cons_self _ _)
    have h1 : ordered (cs ++ [x]) :=
      ordered_snoc cs x h (by simp [hx.1]) (by simp [hx.2])
    have h2 := ih (fun y hy => hp y (List.mem_cons_of_mem _ hy)) (cs ++ [x]) h1
    rw [List.append_assoc, List.singleton_append] at h2
    refine ⟨h2.1, ?_⟩
    rw [h2.2, List.countP_append]
    simp [List.countP_cons, not_ok_of_not_configure x hx.2]

theorem cfg_inv_passive (s t : State) (h : cfg_inv s) (hp : passive_ext s t) : cfg_inv t := by
  obtain ⟨hf, extra, hc, hx⟩ := hp
  obtain ⟨h1, h2⟩ := passive_append extra hx s.calls h.1
  unfold cfg_inv cfg_log
  rw [hc, hf, h2]
  exact ⟨h1, h.2⟩

theorem passive_ext_refl (s : State) : passive_ext s s :=
  ⟨rfl, [], by simp, by simp⟩

theorem passive_ext_trans (s t u : State) (h1 : passive_ext s t) (h2 : passive_ext t u) :
    passive_ext s u := by
  obtain ⟨f1, e1, c1, x1⟩ := h1
  obtain ⟨f2, e2, c2, x2⟩ := h2
  refine ⟨f2.trans f1, e1 ++ e2, by rw [c2, c1, List.append_assoc], ?_⟩
  intro x hx
  rcases List.mem_append.mp hx with h | h
  · exact x1 x h
  · exact x2 x h

theorem passive_ext_stop_trace (s : State) : passive_ext s (stop_trace s) := by
  rw [stop_trace_eq]
  refine ⟨rfl, stop_trace_calls s, rfl, ?_⟩
  intro x hx
  unfold stop_trace_calls at hx
  simp only [List.mem_append, List.mem_map, List.mem_cons, List.mem_singleton] at hx
  rcases hx with (((hx | ⟨i, _, rfl⟩) | hx) | hx | hx) | hx
  · split_ifs at hx
    · simp only [List.mem_singleton] at hx; subst hx; exact ⟨rfl, rfl⟩
    · simp at hx
  · exact ⟨rfl, rfl⟩
  · split_ifs at hx
    · simp only [List.mem_singleton] at hx; subst hx; exact ⟨rfl, rfl⟩
    · simp at hx
  · subst hx; exact ⟨rfl, rfl⟩
  · rcases hx with rfl | hx
    · exact ⟨rfl, rfl⟩
    · simp at hx
  · split_ifs at hx
    · simp only [List.mem_map] at hx
      obtain ⟨i, _, rfl⟩ := hx
      exact ⟨rfl, rfl⟩
    · simp at hx

theorem passive_ext_fetch_trace (s : State) (new_trace_buf : Nat) (rd : Nat → Int) :
    passive_ext s (fetch_trace s new_trace_buf rd) := by
  unfold fetch_trace fetch_trace_read passive_ext
  simp only [State.log]
  split_ifs <;> simp only [List.append_assoc] <;>
    exact ⟨trivial, _, rfl, by simp [is_enable, is_configure]⟩

theorem passive_ext_decode_trace (s : State) (init_ok dec_ok : Bool) :
    passive_ext s (decode_trace s init_ok dec_ok).1 := by
  unfold decode_trace ensure_decoder
  simp only [State.log]
  split_ifs <;>
    first
    | exact passive_ext_refl _
    | (unfold passive_ext
       simp only [List.append_assoc]
       exact ⟨trivial, _, rfl, by simp [is_enable, is_configure]⟩)

theorem passive_ext_sink (s : State) (u : Int) : passive_ext s { s with sink_unread := u } :=
  ⟨rfl, [], by simp, by simp⟩

theorem passive_ext_init (s : State) (m : Nat) :
    passive_ext s (init_trace_buf (set_cpu_affinity s) m).1 := by
  unfold init_trace_buf set_cpu_affinity passive_ext
  simp only [State.log]
  split_ifs <;> exact ⟨rfl, _, rfl, by simp [is_enable, is_configure]⟩

theorem cfg_log_configure_ok (cs : List Call) (pid : Int) (h : cfg_log cs true) :
    cfg_log (cs ++ [Call.configure_trace pid true]) false := by
  obtain ⟨h1, h2⟩ := h
  simp only [if_true] at h2
  refine ⟨ordered_snoc _ _ h1 (by simp [is_enable]) (fun _ => h2), ?_⟩
  simp [List.countP_append, h2, is_configure_ok]

theorem cfg_log_configure_fail (cs : List Call) (pid : Int) (h : cfg_log cs true) :
    cfg_log (cs ++ [Call.configure_trace pid false]) true := by
  obtain ⟨h1, h2⟩ := h
  simp only [if_true] at h2
  refine ⟨ordered_snoc _ _ h1 (by simp [is_enable]) (fun _ => h2), ?_⟩
  simp [List.countP_append, h2, is_configure_ok]

theorem cfg_log_enable (cs : List Call) (ok : Bool) (h : cfg_log cs false) :
    cfg_log (cs ++ [Call.enable_trace ok]) false := by
  obtain ⟨h1, h2⟩ := h
  simp only [Bool.false_eq_true, if_false] at h2
  refine ⟨ordered_snoc _ _ h1 (fun _ => by omega) (by simp [is_configure]), ?_⟩
  simp [List.countP_append, h2, is_configure_ok]

theorem cfg_log_passive (cs : List Call) (first : Bool) (x : Call) (h : cfg_log cs first)
    (he : is_enable x = false) (hc : is_configure x = false) : cfg_log (cs ++ [x]) first := by
  obtain ⟨h1, h2⟩ := h
  refine ⟨ordered_snoc _ _ h1 (by simp [he]) (by simp [hc]), ?_⟩
  simp [List.countP_append, h2, not_ok_of_not_configure x hc]

theorem cfg_inv_start_trace (s : State) (pid : Int) (cfg_ok en_ok : Bool) (h : cfg_inv s) :
    cfg_inv (start_trace s pid cfg_ok en_ok).1 := by
  unfold cfg_inv at h ⊢
  cases hf : s.is_first_trace <;> cases cfg_ok <;> cases en_ok <;>
    cases hx : s.export_config <;>
    simp only [start_trace, State.log, hf, hx, if_true, if_false, Bool.false_eq_true] <;>
    rw [hf] at h <;>
    first
    | exact cfg_log_passive _ _ _ (cfg_log_enable _ _ h) rfl rfl
    | exact cfg_log_passive _ _ _ (cfg_log_passive _ _ _ (cfg_log_enable _ _ h) rfl rfl) rfl rfl
    | exact cfg_log_passive _ _ _ (cfg_log_configure_fail _ _ h) rfl rfl
    | exact cfg_log_passive _ _ _
        (cfg_log_enable _ _ (cfg_log_configure_ok _ _ h)) rfl rfl
    | exact cfg_log_passive _ _ _ (cfg_log_passive _ _ _
        (cfg_log_enable _ _ (cfg_log_configure_ok _ _ h)) rfl rfl) rfl rfl

theorem cfg_inv_run_op (s : State) (op : Op) (h : cfg_inv s) : cfg_inv (run_op s op) := by
  cases op with
  | start pid cfg_ok en_ok => exact cfg_inv_start_trace s pid cfg_ok en_ok h
  | stop => exact cfg_inv_passive _ _ h (passive_ext_stop_trace s)
  | fetch d =>
    exact cfg_inv_passive _ _ h
      (passive_ext_trans _ _ _ (passive_ext_sink s d.unread) (passive_ext_fetch_trace _ _ _))
  | sigstop pid d cfg_ok en_ok =>
    simp only [run_op, parent_sigstop]
    split_ifs
    · apply cfg_inv_start_trace
      exact cfg_inv_passive _ _ h
        (passive_ext_trans _ _ _ (passive_ext_sink s d.unread)
          (passive_ext_trans _ _ _ (passive_ext_stop_trace _) (passive_ext_fetch_trace _ _ _)))
    · exact cfg_inv_passive _ _ h (passive_ext_sink s d.unread)
  | afl_start pid m cfg_ok en_ok =>
    simp only [run_op, afl_start_trace]
    have h1 := cfg_inv_passive _ _ h (passive_ext_init s m)
    split_ifs
    · exact cfg_inv_start_trace _ _ _ _ h1
    · exact h1
  | afl_stop d init_ok dec_ok =>
    have h1 : passive_ext s
        (decode_trace (fetch_trace (stop_trace { s with sink_unread := d.unread })
          d.new_trace_buf d.rd) init_ok dec_ok).1 :=
      passive_ext_trans _ _ _ (passive_ext_sink s d.unread)
        (passive_ext_trans _ _ _ (passive_ext_stop_trace _)
          (passive_ext_trans _ _ _ (passive_ext_fetch_trace _ _ _)
            (passive_ext_decode_trace _ _ _)))
    have h2 := cfg_inv_passive _ _ h h1
    simp only [run_op, afl_stop_trace, State.log]
    split_ifs
    · exact cfg_log_passive _ _ _ h2 rfl rfl
    · exact h2

theorem cfg_inv_run_ops (ops : List Op) : ∀ s : State, cfg_inv s → cfg_inv (run_ops s ops) := by
  induction ops with
  | nil => intro s h; exact h
  | cons op ops ih => intro s h; exact ih _ (cfg_inv_run_op s op h)

/-- C8, as stated, fails: when the `configure_trace` of the initial start
fails, the `SIGSTOP` restart that follows calls `configure_trace` again, so the
session makes two `configure_trace` calls and the restart does reconfigure. -/
theorem configure_called_twice :
    (run_ops fresh_buf retry_session).calls =
      [Call.configure_trace 100 false, Call.cs_shutdown,
       Call.cs_etb_flush_and_wait_stop, Call.cs_trace_disable 0, Call.cs_sink_disable_etb,
       Call.cs_checkpoint, Call.cs_get_trace_data 0x7f0000000000 0x80000 0x100,
       Call.cs_empty_trace_buffer,
       Call.configure_trace 100 true, Call.enable_trace true, Call.cs_checkpoint] ∧
    (run_ops fresh_buf retry_session).calls.countP is_configure = 2 := by
  decide

/-- C8, amended: in every session that starts with `is_first_trace = true` and
an empty log (initial start, watchdog restarts, forkserver runs, in any order
and with any outcomes), `configure_trace` succeeds at most once, no
`configure_trace` call is made after one that succeeded (a failed one is
retried by the next `start_trace`), and every `enable_trace` call is preceded
by a `configure_trace` call that succeeded; `is_first_trace` is false exactly
when a `configure_trace` call has succeeded, so that from then on every
restart enables without configuring. -/
theorem configure_once (s : State) (ops : List Op)
    (hfirst : s.is_first_trace = true) (hlog : s.calls = []) :
    (run_ops s ops).calls.countP is_configure_ok ≤ 1 ∧
    (∀ pre c post, (run_ops s ops).calls = pre ++ c :: post → is_configure c = true →
      pre.countP is_configure_ok = 0) ∧
    (∀ pre c post, (run_ops s ops).calls = pre ++ c :: post → is_enable c = true →
      0 < pre.countP is_configure_ok) ∧
    ((run_ops s ops).is_first_trace = false ↔
      (run_ops s ops).calls.countP is_configure_ok = 1) := by
  have h0 : cfg_inv s := by
    unfold cfg_inv cfg_log
    rw [hlog, hfirst]
    refine ⟨?_, by simp⟩
    intro pre c post h
    simp at h
  obtain ⟨ho, hc⟩ := cfg_inv_run_ops ops s h0
  refine ⟨?_, fun pre c post h => (ho pre c post h).2, fun pre c post h => (ho pre c post h).1, ?_⟩
  · rw [hc]; split_ifs <;> omega
  · rw [hc]
    cases (run_ops s ops).is_first_trace <;> simp

/-- C8, amended, at a concrete input: the session whose first
`configure_trace` fails has one successful `configure_trace` call and ends
with `is_first_trace = false`. -/
theorem configure_once_witness :
    (run_ops fresh_buf retry_session).calls.countP is_configure_ok = 1 ∧
    (run_ops fresh_buf retry_session).is_first_trace = false :=
  have h := configure_once fresh_buf retry_session (by decide) (by decide)
  ⟨h.2.2.2.mp (by decide), by decide⟩

/-! ## Growth of the trace buffer -/

/-- C13: in every `fetch_trace` call in which the unread byte count exceeds
`size - (head - base)` (taken at the 8-byte aligned head) and the remap
succeeds (`mremap` answers a non-null address and twice the size is a valid
length), the new base is the address that `mremap` answered, the new size is
exactly twice the old size, and the sink read that follows starts at an
address whose offset from the new base equals the offset of the 8-byte
aligned head from the old base, wherever the new base lies. -/
theorem growth_preserves_offset (s : State) (new_trace_buf : Nat) (rd : Nat → Int)
    (hgrow : to_size_t s.sink_unread >
      (s.trace_buf_size + WORD - ptr_diff (ALIGN_UP s.trace_buf_ptr 0x8) s.trace_buf) % WORD)
    (hnull : new_trace_buf ≠ 0) (hfit : 2 * s.trace_buf_size < WORD) :
    (fetch_trace s new_trace_buf rd).trace_buf = new_trace_buf ∧
    (fetch_trace s new_trace_buf rd).trace_buf_size = 2 * s.trace_buf_size ∧
    ∃ dest limit rest,
      (fetch_trace s new_trace_buf rd).calls =
        s.calls ++
          Call.mremap s.trace_buf s.trace_buf_size (2 * s.trace_buf_size) new_trace_buf ::
          Call.cs_get_trace_data dest limit (rd limit) :: rest ∧
      ptr_diff dest new_trace_buf = ptr_diff (ALIGN_UP s.trace_buf_ptr 0x8) s.trace_buf := by
  have hsz : s.trace_buf_size * 2 % WORD = 2 * s.trace_buf_size := by
    rw [Nat.mod_eq_of_lt (by omega)]; omega
  have hoff : ptr_diff (ALIGN_UP s.trace_buf_ptr 0x8) s.trace_buf < WORD :=
    Nat.mod_lt _ (by simp [WORD])
  have hd := ptr_diff_add new_trace_buf _ hoff
  unfold fetch_trace
  simp only [hgrow, hnull, if_true, if_false, State.log, hsz]
  unfold fetch_trace_read
  simp only [State.log]
  split_ifs with hn
  · refine ⟨rfl, rfl,
      (new_trace_buf + ptr_diff (ALIGN_UP s.trace_buf_ptr 0x8) s.trace_buf) % WORD,
      ptr_diff ((new_trace_buf + ptr_diff (ALIGN_UP s.trace_buf_ptr 0x8) s.trace_buf) % WORD)
        new_trace_buf, [], ?_, hd⟩
    simp
  · refine ⟨rfl, rfl,
      (new_trace_buf + ptr_diff (ALIGN_UP s.trace_buf_ptr 0x8) s.trace_buf) % WORD,
      ptr_diff ((new_trace_buf + ptr_diff (ALIGN_UP s.trace_buf_ptr 0x8) s.trace_buf) % WORD)
        new_trace_buf, [Call.cs_empty_trace_buffer], ?_, hd⟩
    simp

/-- C13 at a concrete input: a buffer that holds `0x1008` bytes grows for
`0x80000` unread bytes and is moved by the remap; the size doubles and the
read starts at offset `0x1008` from the new base. -/
theorem growth_preserves_offset_witness :
    (fetch_trace partly_filled moved_base (sink_read 0x80000)).trace_buf = moved_base ∧
    (fetch_trace partly_filled moved_base (sink_read 0x80000)).trace_buf_size =
      2 * partly_filled.trace_buf_size ∧
    (fetch_trace partly_filled moved_base (sink_read 0x80000)).calls =
      [Call.mremap 0x7f0000000000 0x80000 0x100000 0x7f0000100000,
       Call.cs_get_trace_data 0x7f0000101008 0x1008 0x1008,
       Call.cs_empty_trace_buffer] :=
  have h := growth_preserves_offset partly_filled moved_base (sink_read 0x80000)
    (by decide) (by decide) (by decide)
  ⟨h.1, h.2.1, by decide⟩

/-! ## The mmap toggle -/

theorem append_keeps_toggle (s : State) (p : Option mmap_params) (path : String) :
    (append_mmap_exec_region s p path).1.is_entered_mmap = s.is_entered_mmap := by
  unfold append_mmap_exec_region
  cases p with
  | none => rfl
  | some q => simp only; split_ifs <;> rfl

theorem toggle_of_none (s : State) (regs regs2 : Option user_pt_regs) (path : String)
    (h : get_mmap_params regs = none) :
    (parent_syscall_stop s regs regs2 path).is_entered_mmap = s.is_entered_mmap := by
  unfold parent_syscall_stop
  simp only [h, State.log]
  split_ifs <;> rfl

theorem toggle_of_some (s : State) (regs regs2 : Option user_pt_regs) (path : String)
    (p : mmap_params) (h : get_mmap_params regs = some p) :
    (parent_syscall_stop s regs regs2 path).is_entered_mmap = !s.is_entered_mmap := by
  unfold parent_syscall_stop
  simp only [h]
  split_ifs <;> simp [append_keeps_toggle]

theorem get_mmap_params_mmap (st : Stop) (hf : faithful st = true) (hm : st.nr = NR_mmap)
    (hr : st.regs.isSome = true) : ∃ p, get_mmap_params st.regs = some p := by
  unfold faithful at hf
  cases h : st.regs with
  | none => rw [h] at hr; simp at hr
  | some r =>
    rw [h] at hf
    simp only [decide_eq_true_eq] at hf
    simp [get_mmap_params, hf, hm]

theorem get_mmap_params_other (st : Stop) (hf : faithful st = true) (hm : st.nr ≠ NR_mmap) :
    get_mmap_params st.regs = none := by
  unfold faithful at hf
  cases h : st.regs with
  | none => rfl
  | some r =>
    rw [h] at hf
    simp only [decide_eq_true_eq] at hf
    simp [get_mmap_params, hf, hm]

theorem toggle_tracks_from (sts : List Stop) :
    ∀ (s : State) (pending : Option Int), well_formed pending sts = true →
      (∀ st ∈ sts, faithful st = true) →
      (∀ st ∈ sts, st.nr = NR_mmap → st.regs.isSome = true) →
      (s.is_entered_mmap = true ↔ pending = some NR_mmap) →
      toggle_tracks s sts := by
  induction sts with
  | nil => intro s pending _ _ _ _; trivial
  | cons st sts ih =>
    intro s pending hwf hf hr h0
    have hfst := hf st (List.mem_cons_self _ _)
    have hf' : ∀ x ∈ sts, faithful x = true := fun x hx => hf x (List.mem_cons_of_mem _ hx)
    have hr' : ∀ x ∈ sts, x.nr = NR_mmap → x.regs.isSome = true :=
      fun x hx => hr x (List.mem_cons_of_mem _ hx)
    cases pending with
    | none =>
      simp only [well_formed, Bool.and_eq_true, Bool.not_eq_true'] at hwf
      obtain ⟨hexit, hrest⟩ := hwf
      have hoff : s.is_entered_mmap = false := by
        cases h : s.is_entered_mmap with
        | false => rfl
        | true => exact absurd (h0.mp h) (by simp)
      by_cases hm : st.nr = NR_mmap
      · obtain ⟨p, hp⟩ := get_mmap_params_mmap st hfst hm (hr st (List.mem_cons_self _ _) hm)
        have ht := toggle_of_some s st.regs st.regs2 st.path p hp
        refine ⟨?_, ?_, ih _ (some st.nr) hrest hf' hr' ?_⟩
        · simp [invokes_append, hp, hoff, hexit]
        · simp [ht, hoff, hm, hexit]
        · simp [ht, hoff, hm]
      · have hp := get_mmap_params_other st hfst hm
        have ht := toggle_of_none s st.regs st.regs2 st.path hp
        refine ⟨?_, ?_, ih _ (some st.nr) hrest hf' hr' ?_⟩
        · simp [invokes_append, hp, hm]
        · simp [ht, hoff, hm]
        · simp [ht, hoff, hm]
    | some nr =>
      simp only [well_formed, Bool.and_eq_true, decide_eq_true_eq] at hwf
      obtain ⟨⟨hexit, hnr⟩, hrest⟩ := hwf
      by_cases hm : st.nr = NR_mmap
      · obtain ⟨p, hp⟩ := get_mmap_params_mmap st hfst hm (hr st (List.mem_cons_self _ _) hm)
        have ht := toggle_of_some s st.regs st.regs2 st.path p hp
        have hon : s.is_entered_mmap = true := h0.mpr (by rw [← hnr, hm])
        refine ⟨?_, ?_, ih _ none hrest hf' hr' ?_⟩
        · simp [invokes_append, hp, hon, hexit, hm]
        · simp [ht, hon, hexit]
        · simp [ht, hon]
      · have hp := get_mmap_params_other st hfst hm
        have ht := toggle_of_none s st.regs st.regs2 st.path hp
        have hoff : s.is_entered_mmap = false := by
          cases h : s.is_entered_mmap with
          | false => rfl
          | true =>
            have := h0.mp h
            simp only [Option.some.injEq] at this
            exact absurd (hnr.trans this) hm
        refine ⟨?_, ?_, ih _ none hrest hf' hr' ?_⟩
        · simp [invokes_append, hp, hm]
        · simp [ht, hoff, hm]
        · simp [ht, hoff]

/-- C12, as stated, fails: when the register read at the exit stop of an mmap
call fails, the stop is skipped and the toggle stays set after the call; at
the entry stop of the next mmap call `append_mmap_exec_region` is called, and
it records an entry that starts at the address hint 0. -/
theorem append_at_entry_stop :
    well_formed none skipped_exit = true ∧
    (syscall_stops fresh (skipped_exit.take 2)).is_entered_mmap = true ∧
    invokes_append (syscall_stops fresh (skipped_exit.take 2)) (some mmap_entry_regs) = true ∧
    (syscall_stops fresh skipped_exit).range_count = 1 ∧
    (syscall_stops fresh skipped_exit).range[0]? =
      some { start := 0, end_ := 0x1000, path := "/usr/lib/libb.so" } := by
  decide

/-- C12, amended: for every sequence of syscall stops of one thread that
starts with the toggle clear, in which the register read succeeds at every
stop of an mmap call (reads at the stops of other syscalls may fail and be
skipped) and a read that succeeds shows the syscall number, the toggle is set
after a stop exactly when that stop is the entry stop of an mmap call, and
`append_mmap_exec_region` is called at a stop exactly when that stop is the
exit stop of an mmap call, never at an entry stop. -/
theorem toggle_tracks_mmap (sts : List Stop) (s : State)
    (h0 : s.is_entered_mmap = false) (hwf : well_formed none sts = true)
    (hf : ∀ st ∈ sts, faithful st = true)
    (hr : ∀ st ∈ sts, st.nr = NR_mmap → st.regs.isSome = true) :
    toggle_tracks s sts :=
  toggle_tracks_from sts s none hwf hf hr (by simp [h0])

/-- C12, amended, at a concrete input: an `openat` call whose entry stop is
skipped and a complete mmap call; the mapping is recorded at the exit stop. -/
theorem toggle_tracks_mmap_witness :
    toggle_tracks fresh open_then_mmap ∧
    (syscall_stops fresh open_then_mmap).is_entered_mmap = false ∧
    (syscall_stops fresh open_then_mmap).range[0]? =
      some { start := 0x7f0000030000, end_ := 0x7f0000031000, path := "/usr/lib/liba.so" } :=
  ⟨toggle_tracks_mmap open_then_mmap fresh (by decide) (by decide) (by decide) (by decide),
    by decide, by decide⟩

/-! ## Preferred CPU -/

/-- C11 at the failing input: with affinity `{0, 1}`, four CPUs and topology
entries `0-1` and `2-3`, `set_core_cpus` reads each entry as the single CPU 0
(`strtol` stops at the dash), so `get_preferred_cpu` returns 1, a sibling of
CPU 0, where the claim gives 2.  With the entries spelled `0,1` and `2,3` it
returns 2. -/
theorem preferred_cpu_ignores_ranges :
    set_core_cpus (some "0-1\n") [] (CPU_ALLOC_SIZE 4) = some [0] ∧
    spec_cpulist "0-1\n" = [0, 1] ∧
    get_preferred_cpu smt_pairs = 1 ∧
    spec_preferred_cpu 4 [0, 1] (fun i => if i < 2 then "0-1\n" else "2-3\n") = 2 ∧
    get_preferred_cpu smt_pairs_commas = 2 := by
  decide

end CoresightTrace
